import Mathlib

/-!
Verification of the matching and resolution engine of the
`tcg-list-extra-info` repository (`backend/card_matcher.py`,
`backend/app.py`, `backend/browser_service.py`).

Strings are modelled as `List Char`.  The Python runtime's Unicode
services (`str.lower`, `unicodedata.normalize("NFD", ·)`,
`unicodedata.category`, the regex classes `\s` and `\w`, and the
whitespace set used by `str.strip()` / `str.split()`) are modelled as an
abstract interface `PyUnicode`; `asciiPy` is its concrete ASCII
instantiation, used for all concrete test inputs (which are all ASCII).
-/

set_option maxHeartbeats 1000000

namespace TcgInfo

/-! ## Definitions -/

/-- Abstract model of the Python runtime's Unicode tables used by the
backend: whole-string lower-casing, per-character upper-casing, NFD
decomposition, the `Mn` (combining-mark) category test, the regex `\s`
class, the regex `\w` class (used by `\b` word boundaries), and the
whitespace set of `str.strip()` / `str.split()`. -/
structure PyUnicode where
  lower : List Char → List Char
  upper : Char → List Char
  nfd : List Char → List Char
  isMn : Char → Bool
  isSpace : Char → Bool
  isWord : Char → Bool
  isStripSpace : Char → Bool

/-- ASCII lower-casing of a single character (codepoints 65-90 are
`'A'`-`'Z'`). -/
def asciiLower (c : Char) : Char :=
  if 65 ≤ c.toNat ∧ c.toNat ≤ 90 then Char.ofNat (c.toNat + 32) else c

/-- ASCII upper-casing of a single character (codepoints 97-122 are
`'a'`-`'z'`). -/
def asciiUpper (c : Char) : Char :=
  if 97 ≤ c.toNat ∧ c.toNat ≤ 122 then Char.ofNat (c.toNat - 32) else c

/-- The ASCII part of the regex `\s` class
(space, tab, newline, carriage return, vertical tab, form feed). -/
def asciiIsSpace (c : Char) : Bool :=
  c.toNat == 32 || c.toNat == 9 || c.toNat == 10 || c.toNat == 13 ||
    c.toNat == 11 || c.toNat == 12

/-- The ASCII part of the regex `\w` class. -/
def asciiIsWord (c : Char) : Bool :=
  c.isAlphanum || c == '_'

/-- Concrete ASCII instantiation of `PyUnicode` (all concrete inputs in
this development are ASCII, on which the Python tables agree with it). -/
def asciiPy : PyUnicode where
  lower := List.map asciiLower
  upper := fun c => [asciiUpper c]
  nfd := id
  isMn := fun _ => false
  isSpace := asciiIsSpace
  isWord := asciiIsWord
  isStripSpace := asciiIsSpace

/-! ### `normalize_text` (card_matcher.py lines 18-24 / app.py lines 85-91) -/

/-- Is `c` an ASCII lower-case letter or digit (the regex class
`[a-z0-9]`; codepoints 97-122 and 48-57). -/
def isLetterDigit (c : Char) : Bool :=
  (97 ≤ c.toNat && c.toNat ≤ 122) || (48 ≤ c.toNat && c.toNat ≤ 57)

/-- The character class kept by `re.sub(r"[^a-z0-9\s]", "", ·)`. -/
def keepChar (U : PyUnicode) (c : Char) : Bool :=
  isLetterDigit c || U.isSpace c

/-- State-machine rendering of `re.sub(r"\s+", " ", ·)`: `prevSpace`
records whether the previous character was part of a `\s` run (in which
case further run characters are dropped). -/
def collapseAux (U : PyUnicode) (prevSpace : Bool) : List Char → List Char
  | [] => []
  | c :: cs =>
    if U.isSpace c then
      if prevSpace then collapseAux U true cs
      else ' ' :: collapseAux U true cs
    else c :: collapseAux U false cs

/-- `re.sub(r"\s+", " ", ·)`: replace every maximal run of `\s`
characters by a single space. -/
def collapseSpaces (U : PyUnicode) (l : List Char) : List Char :=
  collapseAux U false l

/-- `str.strip()`: drop leading and trailing whitespace characters. -/
def stripEnds (U : PyUnicode) (l : List Char) : List Char :=
  ((l.dropWhile U.isStripSpace).reverse.dropWhile U.isStripSpace).reverse

/-- `normalize_text` (card_matcher.py lines 18-24): lower-case, NFD
decompose, drop combining marks, drop characters outside `[a-z0-9\s]`,
collapse whitespace runs to a single space, strip. -/
def normalize_text (U : PyUnicode) (text : List Char) : List Char :=
  stripEnds U (collapseSpaces U
    (((U.nfd (U.lower text)).filter (fun c => !U.isMn c)).filter (keepChar U)))

/-! ### `extract_card_suffixes` (card_matcher.py lines 27-34 / app.py lines 94-101) -/

/-- Does `w` occur in `t` starting at position `i`. -/
def matchesAt (w t : List Char) (i : Nat) : Bool :=
  (t.drop i).take w.length == w

/-- Word-boundary occurrence of `w` in `t` at position `i` (the regex
`\b w \b`; since every searched word starts and ends with a word
character, `\b` amounts to the adjacent characters not being `\w`). -/
def wordOccursAt (U : PyUnicode) (w t : List Char) (i : Nat) : Bool :=
  matchesAt w t i && (i == 0 || !U.isWord (t.getD (i - 1) ' ')) &&
    (i + w.length == t.length || !U.isWord (t.getD (i + w.length) ' '))

/-- `re.search(r"\b" + w + r"\b", t)` succeeds. -/
def wordOccurs (U : PyUnicode) (w t : List Char) : Bool :=
  (List.range (t.length + 1)).any (wordOccursAt U w t)

/-- The fixed ordered tuple `("vmax", "vstar", "ex", "gx", "v")`. -/
def specialSuffixes : List (List Char) :=
  ["vmax".toList, "vstar".toList, "ex".toList, "gx".toList, "v".toList]

/-- `extract_card_suffixes` (card_matcher.py lines 27-34): the set of
special suffixes that occur as whole words in the lower-cased text. -/
def extract_card_suffixes (U : PyUnicode) (text : List Char) : Finset (List Char) :=
  (specialSuffixes.filter (fun sfx => wordOccurs U sfx (U.lower text))).toFinset

/-! ### Number normalisation and the product index
(card_matcher.py lines 41-53 / app.py lines 104-120) -/

/-- Python's `a in b` substring test. -/
def isSubstring (a b : List Char) : Bool :=
  (List.range (b.length + 1)).any (fun i => (b.drop i).take a.length == a)

/-- `num.lstrip("0") or "0"`. -/
def stripLeadingZeros (s : List Char) : List Char :=
  match s.dropWhile (· == '0') with
  | [] => ['0']
  | r => r

/-- `num.split("/")[0]` when `"/" in num`, else `num`. -/
def beforeFirstSlash (s : List Char) : List Char :=
  if s.contains '/' then s.takeWhile (fun c => !(c == '/')) else s

/-- The catalog-side number normalisation applied by
`build_products_index` (card_matcher.py lines 47-50). -/
def normalizeCatalogNumber (v : List Char) : List Char :=
  stripLeadingZeros (beforeFirstSlash v)

/-- One entry of a product's `extendedData` list; `dict.get` returns
`None` for missing keys, hence the `Option` fields. -/
structure ExtData where
  name : Option (List Char)
  value : Option (List Char)
deriving DecidableEq

/-- A catalog product. -/
structure Product where
  name : Option (List Char)
  cleanName : Option (List Char)
  imageUrl : Option (List Char)
  extendedData : List ExtData
deriving DecidableEq

/-- A scraped card observation (`data-name`, `data-number`, card URL). -/
structure CardInfo where
  name : List Char
  number : List Char
  url : List Char
deriving DecidableEq

def numberName : List Char := "Number".toList

/-- The inner `for data in extendedData: if data.get("name") == "Number":
... break` scan: the value of the first entry named `"Number"`. -/
def numberEntryScan : List ExtData → Option (List Char)
  | [] => none
  | d :: ds =>
    if d.name == some numberName then some (d.value.getD [])
    else numberEntryScan ds

/-- The empty product index (`{}`, with `.get(k, [])` lookup). -/
def emptyIndex : List Char → List Product := fun _ => []

/-- `index.setdefault(k, []).append(p)`. -/
def indexAdd (idx : List Char → List Product) (k : List Char) (p : Product) :
    List Char → List Product :=
  fun k' => if k' == k then idx k' ++ [p] else idx k'

/-- `build_products_index` (card_matcher.py lines 41-53): bucket the
products by normalised catalog number. -/
def build_products_index (products : List Product) : List Char → List Product :=
  products.foldl
    (fun idx p =>
      match numberEntryScan p.extendedData with
      | none => idx
      | some v => indexAdd idx (normalizeCatalogNumber v) p)
    emptyIndex

/-! ### The matcher (card_matcher.py lines 56-70 / app.py lines 123-149) -/

/-- `filter(None, [product.get("cleanName"), product.get("name")])`:
the candidate comparison names, with `None` and `""` dropped. -/
def truthyNames (p : Product) : List (List Char) :=
  ([p.cleanName, p.name].filterMap id).filter (fun n => !n.isEmpty)

/-- The inner `for pname in names` loop of `_match_card_to_product`:
suffix-set mismatch skips the name, bidirectional substring containment
of the normalised names accepts the product. -/
def nameScan (U : PyUnicode) (cardSfx : Finset (List Char)) (normName : List Char) :
    List (List Char) → Bool
  | [] => false
  | n :: ns =>
    if extract_card_suffixes U n ≠ cardSfx then nameScan U cardSfx normName ns
    else if isSubstring normName (normalize_text U n)
          || isSubstring (normalize_text U n) normName then true
    else nameScan U cardSfx normName ns

/-- The outer `for product in products_index.get(norm_num, [])` loop. -/
def productScan (U : PyUnicode) (cardSfx : Finset (List Char)) (normName : List Char) :
    List Product → Option Product
  | [] => none
  | p :: ps =>
    if nameScan U cardSfx normName (truthyNames p) then some p
    else productScan U cardSfx normName ps

/-- `_match_card_to_product` (card_matcher.py lines 56-70). -/
def match_card_to_product (U : PyUnicode) (card : CardInfo)
    (idx : List Char → List Product) : Option Product :=
  productScan U (extract_card_suffixes U card.name) (normalize_text U card.name)
    (idx (stripLeadingZeros card.number))

/-! ### `_extract_result` (card_matcher.py lines 73-86) -/

/-- The result dict built from a matched product. -/
structure MatchResult where
  name : List Char
  image_url : List Char
  rarity : Option (List Char)
  group_name : List Char
  set_name : List Char
  card_url : List Char
deriving DecidableEq

/-- Lookup in the dict comprehension
`{d.get("name"): d.get("value") for d in extendedData}` (later entries
overwrite earlier ones). -/
def extLookupLast (p : Product) (k : List Char) : Option (Option (List Char)) :=
  (p.extendedData.reverse.find? (fun d => d.name == some k)).map (fun d => d.value)

def rarityName : List Char := "Rarity".toList

def siteBase : List Char := "https://mytcgcollection.com".toList

/-- `_extract_result` (card_matcher.py lines 73-86). -/
def extract_result (product : Product) (group_name set_name : List Char)
    (card : CardInfo) : MatchResult where
  name := product.name.getD []
  image_url := product.imageUrl.getD []
  rarity := (extLookupLast product rarityName).getD (some [])
  group_name := group_name
  set_name := set_name
  card_url := if card.url.isEmpty then [] else siteBase ++ card.url

/-! ### Characterisations of the index builder and the matcher -/

/-- The key under which `build_products_index` buckets a product:
the normalised value of its first `"Number"` extended-data entry. -/
def productKey (p : Product) : Option (List Char) :=
  (numberEntryScan p.extendedData).map normalizeCatalogNumber

/-- One candidate name satisfies the matcher's two conditions: equal
suffix-tag sets and bidirectional substring containment of normalised
names. -/
def nameOK (U : PyUnicode) (cardSfx : Finset (List Char)) (normName n : List Char) : Bool :=
  decide (extract_card_suffixes U n = cardSfx) &&
    (isSubstring normName (normalize_text U n) || isSubstring (normalize_text U n) normName)

/-- Concrete card `{number: "1", name: "Charizard"}` from the spec. -/
def charizardCard : CardInfo := ⟨"Charizard".toList, "1".toList, []⟩

/-- Concrete product `{number: "1", name: "Charizard VMAX"}` from the spec. -/
def charizardVmaxProduct : Product :=
  ⟨some "Charizard VMAX".toList, none, none, [⟨some numberName, some "1".toList⟩]⟩

/-- Concrete product `{Number: "25/189", name: "Pikachu"}` from the spec. -/
def pikachuProduct : Product :=
  ⟨some "Pikachu".toList, none, none, [⟨some numberName, some "25/189".toList⟩]⟩

/-! ### Idempotence of `normalize_text` (C8)

The output alphabet of `normalize_text` is the ASCII letters/digits plus
the single space.  `NormalizeSane` states the facts about the Python
runtime's Unicode tables on that alphabet (all true of CPython: ASCII
letters/digits and the space are fixed by `str.lower` and NFD, are not
combining marks, and only the space is whitespace) that make a second
pass a no-op. -/

/-- `c` is a possible output character of `normalize_text`. -/
def GoodChar (c : Char) : Prop := isLetterDigit c = true ∨ c = ' '

/-- The facts about the runtime's Unicode tables on the output alphabet
of `normalize_text` that are used for idempotence. -/
structure NormalizeSane (U : PyUnicode) : Prop where
  lower_fixed : ∀ l : List Char, (∀ c ∈ l, GoodChar c) → U.lower l = l
  nfd_fixed : ∀ l : List Char, (∀ c ∈ l, GoodChar c) → U.nfd l = l
  mn_ascii : ∀ c : Char, GoodChar c → U.isMn c = false
  space_space : U.isSpace ' ' = true
  space_letter : ∀ c : Char, isLetterDigit c = true → U.isSpace c = false
  strip_space : U.isStripSpace ' ' = true
  strip_letter : ∀ c : Char, isLetterDigit c = true → U.isStripSpace c = false

/-- No two adjacent spaces. -/
def NoDoubleSpace : List Char → Prop :=
  List.Chain' (fun a b => ¬(a = ' ' ∧ b = ' '))

/-- Canonical form: only letters/digits/spaces, no double spaces, and no
leading or trailing space. -/
def Canon (l : List Char) : Prop :=
  (∀ c ∈ l, GoodChar c) ∧ NoDoubleSpace l ∧ l.head? ≠ some ' ' ∧ l.getLast? ≠ some ' '

/-! ### Set-name resolution (`_fix_set_name`, `_find_group_id`,
card_matcher.py lines 93-133) -/

/-- The "all groups" table: group name to group id, in insertion order
(Python dict iteration order). -/
abbrev Groups := List (List Char × Nat)

/-- `all_groups.get(k)`. -/
def dictGet (groups : Groups) (k : List Char) : Option Nat :=
  (groups.find? (fun g => g.1 == k)).map (fun g => g.2)

/-- Python truthiness of an optional group id (`None` and `0` are falsy). -/
def truthy : Option Nat → Bool
  | none => false
  | some g => !(g == 0)

/-- Fuel-based rendering of `str.replace` for nonempty patterns: replace
every non-overlapping occurrence of `pat`, left to right.  The fuel is
the input length; each step consumes at least one character.  (Python's
distinct empty-pattern semantics is irrelevant: every pattern used by the
source is nonempty.) -/
def replaceAllAux (pat rep : List Char) : Nat → List Char → List Char
  | _, [] => []
  | 0, s => s
  | fuel + 1, c :: cs =>
    if pat.isEmpty then c :: cs
    else if (c :: cs).take pat.length == pat then
      rep ++ replaceAllAux pat rep fuel ((c :: cs).drop pat.length)
    else c :: replaceAllAux pat rep fuel cs

/-- `s.replace(pat, rep)` for nonempty `pat`. -/
def replaceAll (pat rep s : List Char) : List Char :=
  replaceAllAux pat rep s.length s

/-- State-machine rendering of `str.split()` (split on whitespace runs,
no empty words); `cur` holds the current word reversed. -/
def splitWsAux (U : PyUnicode) (cur : List Char) : List Char → List (List Char)
  | [] => if cur.isEmpty then [] else [cur.reverse]
  | c :: cs =>
    if U.isStripSpace c then
      if cur.isEmpty then splitWsAux U [] cs
      else cur.reverse :: splitWsAux U [] cs
    else splitWsAux U (c :: cur) cs

/-- `s.split()`. -/
def splitWs (U : PyUnicode) (l : List Char) : List (List Char) :=
  splitWsAux U [] l

/-- `"".join(·)`. -/
def joinAll : List (List Char) → List Char
  | [] => []
  | w :: ws => w ++ joinAll ws

/-- `"".join(w[0].upper() for w in words if w)`. -/
def abbrevUpper (U : PyUnicode) (words : List (List Char)) : List Char :=
  joinAll ((words.filter (fun w => !w.isEmpty)).map (fun w => U.upper (w.headD ' ')))

def ampStr : List Char := ['&']

def ampSpaceStr : List Char := ['&', ' ']

def andStr : List Char := "and".toList

/-- Step-2 fuzzy rule of `_find_group_id`:
`lower in name.lower() or name.lower() in lower`. -/
def fuzzyMatches (U : PyUnicode) (lowerLabel name : List Char) : Bool :=
  isSubstring lowerLabel (U.lower name) || isSubstring (U.lower name) lowerLabel

/-- Variant fuzzy rule of `_find_group_id`:
`vlow in nl or nl in vlow or nl.startswith(vlow)`. -/
def variantFuzzy (U : PyUnicode) (vlow name : List Char) : Bool :=
  isSubstring vlow (U.lower name) || isSubstring (U.lower name) vlow ||
    (U.lower name).take vlow.length == vlow

/-- The `for variant in variants` loop of `_find_group_id`: exact dict
lookup (truthy), then the fuzzy/startswith scan, first hit wins. -/
def variantLoop (U : PyUnicode) (groups : Groups) : List (List Char) → Option Nat
  | [] => none
  | v :: vs =>
    let gid := dictGet groups v
    if truthy gid then gid
    else
      match groups.find? (fun g => variantFuzzy U (U.lower v) g.1) with
      | some g => some g.2
      | none => variantLoop U groups vs

/-- The ampersand variant list built by `_find_group_id` (card_matcher.py
lines 116-122): remove-`&` form, `and` form, and — only when the word
list is nonempty — the upper-cased first-letter abbreviation. -/
def ampVariants (U : PyUnicode) (set_name : List Char) : List (List Char) :=
  let base := [replaceAll ampStr [] (replaceAll ampSpaceStr [] set_name),
               replaceAll ampStr andStr set_name]
  let words := splitWs U (replaceAll ampStr [] set_name)
  if words.isEmpty then base else base ++ [abbrevUpper U words]

/-- `_find_group_id` (card_matcher.py lines 100-133). -/
def find_group_id (U : PyUnicode) (set_name : List Char) (groups : Groups) : Option Nat :=
  let gid0 := dictGet groups set_name
  if truthy gid0 then gid0
  else
    match groups.find? (fun g => fuzzyMatches U (U.lower set_name) g.1) with
    | some g => some g.2
    | none =>
      if !set_name.contains '&' then none
      else variantLoop U groups (ampVariants U set_name)

/-- `_fix_set_name` (card_matcher.py lines 93-97). -/
def fix_set_name (s : List Char) : List Char :=
  if isSubstring "Accended".toList s then
    replaceAll "Accended".toList "Ascended".toList s
  else s

/-- The C6 claim's variant list: always exactly three variants, the
third being the first-letter abbreviation even when the word list is
empty. -/
def claimThreeVariants (U : PyUnicode) (set_name : List Char) : List (List Char) :=
  [replaceAll ampStr [] (replaceAll ampSpaceStr [] set_name),
   replaceAll ampStr andStr set_name,
   abbrevUpper U (splitWs U (replaceAll ampStr [] set_name))]

/-! ### Deduplication (C2)

The spec's Deduplication & Concurrency Controller (§2, §3 `DedupedCard`,
§6) merges card observations from the multi-source scrape
(`browser_service.scrape_all_lists` returns `(source_name, cards_by_set)`
pairs) by identity key before the resolution fan-out.  Its consumer is
not among the provided sources, so the merge pass itself is modelled
from the spec. -/

/-- An annotated observation: `(sourceName, setLabel, cardInfo)`. -/
abbrev Obs := List Char × List Char × CardInfo

/-- Modelled from the spec (§3 `DedupedCard`; the merge pass is absent
from the provided sources): one deduplicated card with one
representative `cardInfo` and the sets of contributing set labels and
source names. -/
structure DedupedCard where
  cardInfo : CardInfo
  setLabels : Finset (List Char)
  sourceNames : Finset (List Char)
deriving DecidableEq

/-- The deduplication key `(normalizedNumber, normalizedName)` (spec §3). -/
def dedupeKey (U : PyUnicode) (c : CardInfo) : List Char × List Char :=
  (stripLeadingZeros c.number, normalize_text U c.name)

/-- Modelled from the spec: merging one observation into an existing
deduplicated card adds its set label and source name. -/
def updObs (U : PyUnicode) (o : Obs) (d : DedupedCard) : DedupedCard :=
  if decide (dedupeKey U d.cardInfo = dedupeKey U o.2.2) then
    { d with setLabels := insert o.2.1 d.setLabels,
             sourceNames := insert o.1 d.sourceNames }
  else d

/-- Modelled from the spec (the merge pass is absent from the provided
sources): fold one observation into the accumulator — merge into the
existing card with the same key, or append a fresh `DedupedCard`. -/
def addObservation (U : PyUnicode) (acc : List DedupedCard) (o : Obs) : List DedupedCard :=
  if acc.any (fun d => decide (dedupeKey U d.cardInfo = dedupeKey U o.2.2)) then
    acc.map (updObs U o)
  else acc ++ [⟨o.2.2, {o.2.1}, {o.1}⟩]

/-- Modelled from the spec: the deduplication pass over all scraped
observations (in scrape order). -/
def dedupe_cards (U : PyUnicode) (obs : List Obs) : List DedupedCard :=
  obs.foldl (addObservation U) []

/-- Concrete observations from two sources sharing one card identity
(`"025"` and `"25"` normalise to the same number). -/
def obsTwoSources : List Obs :=
  [("A".toList, "Sun & Moon".toList, ⟨"Pikachu".toList, "025".toList, []⟩),
   ("B".toList, "SM".toList, ⟨"Pikachu".toList, "25".toList, []⟩)]

/-- The merged card produced by `dedupe_cards` on `obsTwoSources`. -/
def mergedPikachu : DedupedCard :=
  ⟨⟨"Pikachu".toList, "025".toList, []⟩,
    {"SM".toList, "Sun & Moon".toList}, {"B".toList, "A".toList}⟩

/-! ### The resolution orchestrator (`get_card_details`,
card_matcher.py lines 136-217) and the batch fan-out (app.py
`scrape_list`).

State: `Caches` holds the per-request `products_cache` and the
module-global `products_index_cache`.  The catalog client
(`tcgcsv_service.get_products`) is modelled as a fallible call
`Service`; a raised exception inside the per-card body is represented by
`Except.error` threading to the per-card `try`/`except` boundary, which
converts it to "no match". -/

/-- A raised Python exception (its message). -/
abbrev Exc := List Char

/-- The shared caches: `products_cache` and `products_index_cache`. -/
structure Caches where
  products : Nat → Option (List Product)
  index : Nat → Option (List Char → List Product)

/-- The external catalog client; a call may raise. -/
abbrev Service := Nat → Except Exc (List Product)

def emptyCaches : Caches := ⟨fun _ => none, fun _ => none⟩

def updateProducts (st : Caches) (g : Nat) (ps : List Product) : Caches :=
  { st with products := fun g' => if g' == g then some ps else st.products g' }

def updateIndex (st : Caches) (g : Nat) (idx : List Char → List Product) : Caches :=
  { st with index := fun g' => if g' == g then some idx else st.index g' }

/-- `if products and group_id not in products_index_cache:
products_index_cache[group_id] = build_products_index(products)`. -/
def maybeIndex (st : Caches) (g : Nat) (ps : List Product) : Caches :=
  if !ps.isEmpty && (st.index g).isNone then
    updateIndex st g (build_products_index ps)
  else st

/-- `_ensure_products` (card_matcher.py lines 136-144): fetch-and-cache
the products (the fetch may raise, leaving the caches untouched), then
build and cache the index when products are nonempty and no index
exists. -/
def ensure_products (svc : Service) (g : Nat) (st : Caches) :
    Except Exc (List Product) × Caches :=
  match st.products g with
  | some ps => (Except.ok ps, maybeIndex st g ps)
  | none =>
    match svc g with
    | Except.error e => (Except.error e, st)
    | Except.ok ps => (Except.ok ps, maybeIndex (updateProducts st g ps) g ps)

/-- `products_index_cache.get(gid, {})`. -/
def getIdx (st : Caches) (g : Nat) : List Char → List Product :=
  (st.index g).getD emptyIndex

/-- The index a lookup for group `g` effectively uses, as a function of
the pre-state and the service: the cached index if present, else the
index built from the cached or freshly fetched products (`error` when
the group is uncached and the fetch raises). -/
def idxOf (st : Caches) (g : Nat) (ps : List Product) : List Char → List Product :=
  match st.index g with
  | some i => i
  | none => if ps.isEmpty then emptyIndex else build_products_index ps

def effIdx (svc : Service) (st : Caches) (g : Nat) :
    Except Exc (List Char → List Product) :=
  match st.products g with
  | some ps => Except.ok (idxOf st g ps)
  | none => (svc g).map (idxOf st g)

/-- The promo-group loop of `get_card_details` (card_matcher.py lines
161-171): for each promo group, ensure its index, attempt the match,
return the first success annotated with that group's name. -/
def promoLoop (U : PyUnicode) (card : CardInfo) (set_name : List Char) (svc : Service) :
    List (List Char × Nat) → Caches → Except Exc (Option MatchResult) × Caches
  | [], st => (Except.ok none, st)
  | pg :: rest, st =>
    let res := ensure_products svc pg.2 st
    match res.1 with
    | Except.error e => (Except.error e, res.2)
    | Except.ok _ =>
      match match_card_to_product U card (getIdx res.2 pg.2) with
      | some product =>
        (Except.ok (some (extract_result product pg.1 set_name card)), res.2)
      | none => promoLoop U card set_name svc rest res.2

/-- `"".join(w[0].lower() for w in words if w)`. -/
def abbrevLowerJoin (U : PyUnicode) (words : List (List Char)) : List Char :=
  joinAll ((words.filter (fun w => !w.isEmpty)).map (fun w => U.lower [w.headD ' ']))

/-- The fallback search variants of `get_card_details` (card_matcher.py
lines 189-196). -/
def fallbackVariants (U : PyUnicode) (set_name : List Char) : List (List Char) :=
  let base := [U.lower set_name]
  if set_name.contains '&' then
    let more := base ++ [U.lower (replaceAll ampStr [] (replaceAll ampSpaceStr [] set_name)),
                         U.lower (replaceAll ampStr andStr set_name)]
    let abbr := abbrevLowerJoin U (splitWs U (replaceAll ampStr [] set_name))
    if abbr.isEmpty then more else more ++ [abbr]
  else base

/-- The related-groups fallback loop of `get_card_details`
(card_matcher.py lines 198-208). -/
def fallbackLoop (U : PyUnicode) (card : CardInfo) (svc : Service)
    (variants : List (List Char)) (g0 : Nat) :
    List (List Char × Nat) → Caches → Except Exc (Option (List Char × Product)) × Caches
  | [], st => (Except.ok none, st)
  | gp :: rest, st =>
    if gp.2 == g0 then fallbackLoop U card svc variants g0 rest st
    else if variants.any (fun v => isSubstring v (U.lower gp.1)) then
      let res := ensure_products svc gp.2 st
      match res.1 with
      | Except.error e => (Except.error e, res.2)
      | Except.ok _ =>
        match match_card_to_product U card (getIdx res.2 gp.2) with
        | some p => (Except.ok (some (gp.1, p)), res.2)
        | none => fallbackLoop U card svc variants g0 rest res.2
    else fallbackLoop U card svc variants g0 rest st

/-- `next((n for n, gid in all_groups.items() if gid == group_id), None)`. -/
def groupNameOf (groups : Groups) (g : Nat) : Option (List Char) :=
  (groups.find? (fun p => p.2 == g)).map (fun p => p.1)

/-- `matched_name or set_name` (Python truthiness: `None` and `""`
fall back to the set name). -/
def matchedNameOr (o : Option (List Char)) (set_name : List Char) : List Char :=
  match o with
  | none => set_name
  | some n => if n.isEmpty then set_name else n

def promoToken : List Char := "promo".toList

/-- The promo-group sublist: `[(n, gid) for n, gid in all_groups.items()
if "promo" in n.lower()]`. -/
def promoGroups (U : PyUnicode) (groups : Groups) : List (List Char × Nat) :=
  groups.filter (fun p => isSubstring promoToken (U.lower p.1))

/-- The main (non-promo) phase of `get_card_details` (card_matcher.py
lines 173-214): bail out when no group id, else ensure the resolved
group's index, attempt the match, and on failure fall back to related
groups. -/
def main_phase (U : PyUnicode) (card : CardInfo) (set_name : List Char) (groups : Groups)
    (svc : Service) (group_id : Option Nat) (st1 : Caches) :
    Except Exc (Option MatchResult) × Caches :=
  if !truthy group_id then (Except.ok none, st1)
  else
    let g := group_id.getD 0
    let res := ensure_products svc g st1
    match res.1 with
    | Except.error e => (Except.error e, res.2)
    | Except.ok _ =>
      match match_card_to_product U card (getIdx res.2 g) with
      | some product =>
        (Except.ok (some (extract_result product
          (matchedNameOr (groupNameOf groups g) set_name) set_name card)), res.2)
      | none =>
        let fb := fallbackLoop U card svc (fallbackVariants U set_name) g groups res.2
        match fb.1 with
        | Except.error e => (Except.error e, fb.2)
        | Except.ok none => (Except.ok none, fb.2)
        | Except.ok (some gp) =>
          (Except.ok (some (extract_result gp.2
            (matchedNameOr (some gp.1) set_name) set_name card)), fb.2)

/-- The body of `get_card_details` (card_matcher.py lines 156-214,
inside the `try`). -/
def get_card_details_body (U : PyUnicode) (card : CardInfo) (set_name0 : List Char)
    (groups : Groups) (svc : Service) (st : Caches) :
    Except Exc (Option MatchResult) × Caches :=
  let set_name := fix_set_name set_name0
  let group_id := find_group_id U set_name groups
  let promoStep :=
    if !truthy group_id && isSubstring promoToken (U.lower set_name) then
      promoLoop U card set_name svc (promoGroups U groups) st
    else (Except.ok none, st)
  match promoStep.1 with
  | Except.error e => (Except.error e, promoStep.2)
  | Except.ok (some r) => (Except.ok (some r), promoStep.2)
  | Except.ok none => main_phase U card set_name groups svc group_id promoStep.2

/-- `get_card_details` (card_matcher.py lines 151-217): the per-card
`try`/`except` boundary converts any raised exception to "no match". -/
def get_card_details (U : PyUnicode) (card : CardInfo) (set_name0 : List Char)
    (groups : Groups) (svc : Service) (st : Caches) : Option MatchResult × Caches :=
  match get_card_details_body U card set_name0 groups svc st with
  | (Except.error _, st') => (none, st')
  | (Except.ok r, st') => (r, st')

/-- The batch fan-out of `scrape_list` (app.py lines 342-382), as the
sequential model of the worker pool: resolve every `(card, set label)`
task against the shared caches and collect the non-`None` results. -/
def process_batch (U : PyUnicode) (groups : Groups) (svc : Service) :
    List (CardInfo × List Char) → Caches → List MatchResult × Caches
  | [], st => ([], st)
  | t :: rest, st =>
    let r := get_card_details U t.1 t.2 groups svc st
    let rs := process_batch U groups svc rest r.2
    match r.1 with
    | some x => (x :: rs.1, rs.2)
    | none => (rs.1, rs.2)

/-- The promo scan as a pure function of the initial state: for each
promo group in order, the effective (ensured) index, the match, first
success annotated with the group's name. -/
def promoFirstHit (U : PyUnicode) (card : CardInfo) (set_name : List Char) (svc : Service)
    (st : Caches) : List (List Char × Nat) → Except Exc (Option MatchResult)
  | [] => Except.ok none
  | pg :: rest =>
    match effIdx svc st pg.2 with
    | Except.error e => Except.error e
    | Except.ok idx =>
      match match_card_to_product U card idx with
      | some product => Except.ok (some (extract_result product pg.1 set_name card))
      | none => promoFirstHit U card set_name svc st rest

/-- The related-groups fallback scan as a pure function of the initial
state. -/
def fallbackFirstHit (U : PyUnicode) (card : CardInfo) (svc : Service)
    (variants : List (List Char)) (g0 : Nat) (st : Caches) :
    List (List Char × Nat) → Except Exc (Option (List Char × Product))
  | [] => Except.ok none
  | gp :: rest =>
    if gp.2 == g0 then fallbackFirstHit U card svc variants g0 st rest
    else if variants.any (fun v => isSubstring v (U.lower gp.1)) then
      match effIdx svc st gp.2 with
      | Except.error e => Except.error e
      | Except.ok idx =>
        match match_card_to_product U card idx with
        | some p => Except.ok (some (gp.1, p))
        | none => fallbackFirstHit U card svc variants g0 st rest
    else fallbackFirstHit U card svc variants g0 st rest

/-- The main phase as a pure function of the initial state. -/
def pure_main (U : PyUnicode) (card : CardInfo) (set_name : List Char) (groups : Groups)
    (svc : Service) (group_id : Option Nat) (st : Caches) :
    Except Exc (Option MatchResult) :=
  if !truthy group_id then Except.ok none
  else
    let g := group_id.getD 0
    match effIdx svc st g with
    | Except.error e => Except.error e
    | Except.ok idx =>
      match match_card_to_product U card idx with
      | some product =>
        Except.ok (some (extract_result product
          (matchedNameOr (groupNameOf groups g) set_name) set_name card))
      | none =>
        match fallbackFirstHit U card svc (fallbackVariants U set_name) g st groups with
        | Except.error e => Except.error e
        | Except.ok none => Except.ok none
        | Except.ok (some gp) =>
          Except.ok (some (extract_result gp.2
            (matchedNameOr (some gp.1) set_name) set_name card))

/-- The whole per-card body as a pure function of the initial state. -/
def pure_body (U : PyUnicode) (card : CardInfo) (set_name0 : List Char) (groups : Groups)
    (svc : Service) (st : Caches) : Except Exc (Option MatchResult) :=
  let set_name := fix_set_name set_name0
  let group_id := find_group_id U set_name groups
  let promoRes :=
    if !truthy group_id && isSubstring promoToken (U.lower set_name) then
      promoFirstHit U card set_name svc st (promoGroups U groups)
    else Except.ok none
  match promoRes with
  | Except.error e => Except.error e
  | Except.ok (some r) => Except.ok (some r)
  | Except.ok none => pure_main U card set_name groups svc group_id st

/-- The per-card result as a pure function of the initial state (the
`except` boundary catches a raised body exception as "no match"). -/
def pure_result (U : PyUnicode) (card : CardInfo) (set_name0 : List Char) (groups : Groups)
    (svc : Service) (st : Caches) : Option MatchResult :=
  match pure_body U card set_name0 groups svc st with
  | Except.error _ => none
  | Except.ok r => r

/-- The batch results as a pure function of the initial state. -/
def batch_results (U : PyUnicode) (groups : Groups) (svc : Service) (st : Caches) :
    List (CardInfo × List Char) → List MatchResult
  | [] => []
  | t :: rest =>
    match pure_result U t.1 t.2 groups svc st with
    | some x => x :: batch_results U groups svc st rest
    | none => batch_results U groups svc st rest

/-! ## Theorems -/

theorem nameScan_eq_any (U : PyUnicode) (sfx : Finset (List Char)) (nn : List Char)
    (ns : List (List Char)) : nameScan U sfx nn ns = ns.any (nameOK U sfx nn) := by
  induction ns with
  | nil => rfl
  | cons n ns ih =>
    by_cases h : extract_card_suffixes U n = sfx
    · by_cases h2 : (isSubstring nn (normalize_text U n)
          || isSubstring (normalize_text U n) nn) = true
      · simp [nameScan, h, h2, nameOK]
      · simp only [nameScan, h, if_neg (by simp [h] : ¬extract_card_suffixes U n ≠ sfx)]
        simp only [Bool.not_eq_true] at h2
        simp [h2, ih, nameOK, h]
    · simp [nameScan, h, ih, nameOK]

theorem productScan_eq_find (U : PyUnicode) (sfx : Finset (List Char)) (nn : List Char)
    (l : List Product) :
    productScan U sfx nn l = l.find? (fun p => (truthyNames p).any (nameOK U sfx nn)) := by
  induction l with
  | nil => rfl
  | cons p ps ih =>
    show (if nameScan U sfx nn (truthyNames p) then some p else productScan U sfx nn ps) = _
    rw [nameScan_eq_any, List.find?_cons, ih]
    by_cases h : (truthyNames p).any (nameOK U sfx nn) = true
    · simp [h]
    · simp only [Bool.not_eq_true] at h
      simp [h]

theorem matchCard_eq_find (U : PyUnicode) (card : CardInfo) (idx : List Char → List Product) :
    match_card_to_product U card idx =
      (idx (stripLeadingZeros card.number)).find?
        (fun p => (truthyNames p).any
          (nameOK U (extract_card_suffixes U card.name) (normalize_text U card.name))) :=
  productScan_eq_find U _ _ _

theorem buildIndex_foldl (products : List Product) (idx : List Char → List Product)
    (k : List Char) :
    (products.foldl
      (fun idx p =>
        match numberEntryScan p.extendedData with
        | none => idx
        | some v => indexAdd idx (normalizeCatalogNumber v) p)
      idx) k
      = idx k ++ products.filter (fun p => productKey p == some k) := by
  induction products generalizing idx with
  | nil => simp
  | cons p ps ih =>
    rw [List.foldl_cons, ih, List.filter_cons]
    cases h : numberEntryScan p.extendedData with
    | none => simp [productKey, h]
    | some v =>
      by_cases hk : normalizeCatalogNumber v = k
      · subst hk
        simp [productKey, h, indexAdd]
      · have hpk : (productKey p == some k) = false := by
          simp [productKey, h, hk]
        have hne : (k == normalizeCatalogNumber v) = false := by
          simp [Ne.symm hk]
        simp [hpk, indexAdd, hne, h]

theorem buildIndex_eq_filter (products : List Product) (k : List Char) :
    build_products_index products k
      = products.filter (fun p => productKey p == some k) := by
  rw [build_products_index, buildIndex_foldl]
  rfl

/-- C1: for every card and product index, the matcher scans the bucket at
the card's normalised-number key in index order, accepting the first
candidate one of whose (truthy) names has exactly the card's suffix-tag
set and bidirectional substring containment of the normalised names, and
returns `none` when no candidate qualifies; in particular the card
`{number: "1", name: "Charizard"}` does not match the product
`{number: "1", name: "Charizard VMAX"}`. -/
theorem matcher_first_satisfying_candidate :
    (∀ (U : PyUnicode) (card : CardInfo) (idx : List Char → List Product),
      match_card_to_product U card idx =
        (idx (stripLeadingZeros card.number)).find?
          (fun p => (truthyNames p).any
            (nameOK U (extract_card_suffixes U card.name) (normalize_text U card.name))))
    ∧ match_card_to_product asciiPy charizardCard
        (build_products_index [charizardVmaxProduct]) = none :=
  ⟨matchCard_eq_find, by decide⟩

/-- C3 counterexample: the code's number normalisation maps `"SWSH001"`
to `"SWSH001"`, not to the spec's lower-cased `"swsh001"` (no case
folding is applied to numbers anywhere). -/
theorem number_norm_no_lowercase_counterexample :
    normalizeCatalogNumber "SWSH001".toList = "SWSH001".toList ∧
    normalizeCatalogNumber "SWSH001".toList ≠ "swsh001".toList ∧
    stripLeadingZeros "SWSH001".toList = "SWSH001".toList := by
  decide

/-- C3 amended: `"025/189" ↦ "25"`, `"000" ↦ "0"`, and
`"SWSH001" ↦ "SWSH001"` unchanged — only leading `'0'` characters are
stripped, letters are unaffected and no lower-casing is applied (the
result is always a suffix of the part before the first `'/'`, or `"0"`). -/
theorem number_norm_examples :
    normalizeCatalogNumber "025/189".toList = "25".toList ∧
    normalizeCatalogNumber "000".toList = "0".toList ∧
    normalizeCatalogNumber "SWSH001".toList = "SWSH001".toList ∧
    (∀ v : List Char, normalizeCatalogNumber v = ['0'] ∨
      normalizeCatalogNumber v <:+ beforeFirstSlash v) := by
  refine ⟨by decide, by decide, by decide, fun v => ?_⟩
  unfold normalizeCatalogNumber stripLeadingZeros
  cases h : (beforeFirstSlash v).dropWhile (· == '0') with
  | nil => exact Or.inl rfl
  | cons c cs =>
    refine Or.inr ?_
    show c :: cs <:+ beforeFirstSlash v
    exact h ▸ List.dropWhile_suffix (fun x => x == '0')

/-- C4 counterexample: the card-side normalisation does not split on
`'/'` — card number `"025/189"` yields lookup key `"25/189"`, not
`"25"`, so a card with a `N/Total`-formatted number misses the product
that the same number without the total finds. -/
theorem card_number_not_slash_reduced :
    stripLeadingZeros "025/189".toList = "25/189".toList ∧
    normalizeCatalogNumber "025/189".toList = "25".toList ∧
    match_card_to_product asciiPy ⟨"Pikachu".toList, "025/189".toList, []⟩
      (build_products_index [pikachuProduct]) = none ∧
    match_card_to_product asciiPy ⟨"Pikachu".toList, "025".toList, []⟩
      (build_products_index [pikachuProduct]) = some pikachuProduct := by
  decide

/-- C4 amended: only the catalog number is reduced to the part before
the first `'/'` before leading-zero stripping; the scraped card's number
is only stripped of leading zeros (no `'/'` handling), and the index
lookup compares these two keys. -/
theorem card_key_vs_catalog_key (U : PyUnicode) (card : CardInfo) (products : List Product) :
    match_card_to_product U card (build_products_index products) =
      (products.filter (fun p => productKey p == some (stripLeadingZeros card.number))).find?
        (fun p => (truthyNames p).any
          (nameOK U (extract_card_suffixes U card.name) (normalize_text U card.name))) := by
  rw [matchCard_eq_find, buildIndex_eq_filter]

/-- C10: the index builder buckets each product by the normalised value
of its first `"Number"` extended-data entry only — each listed product
lands in exactly the bucket of that key (so in at most one bucket), a
product with no `"Number"` entry appears in no bucket, and the entry
scan stops at the first `"Number"` entry, ignoring later ones. -/
theorem index_at_most_one_bucket :
    (∀ (products : List Product) (k : List Char),
      build_products_index products k
        = products.filter (fun p => productKey p == some k))
    ∧ (∀ (products : List Product) (p : Product) (k k' : List Char),
      p ∈ build_products_index products k → p ∈ build_products_index products k' → k = k')
    ∧ (∀ (products : List Product) (p : Product),
      numberEntryScan p.extendedData = none → ∀ k, p ∉ build_products_index products k)
    ∧ (∀ (d : ExtData) (ds : List ExtData), d.name = some numberName →
      numberEntryScan (d :: ds) = some (d.value.getD [])) := by
  refine ⟨buildIndex_eq_filter, ?_, ?_, ?_⟩
  · intro products p k k' hk hk'
    rw [buildIndex_eq_filter] at hk hk'
    have h1 := (List.mem_filter.mp hk).2
    have h2 := (List.mem_filter.mp hk').2
    simp only [beq_iff_eq] at h1 h2
    exact Option.some.inj (h1 ▸ h2 ▸ rfl)
  · intro products p hnone k hmem
    rw [buildIndex_eq_filter] at hmem
    have h1 := (List.mem_filter.mp hmem).2
    simp [productKey, hnone] at h1
  · intro d ds hd
    simp [numberEntryScan, hd]

/-- C10 witness: concrete instances discharging the hypotheses of
`index_at_most_one_bucket`. -/
theorem index_at_most_one_bucket_witness :
    ("1".toList = "1".toList)
    ∧ (⟨some "X".toList, none, none, []⟩ : Product) ∉
        build_products_index [⟨some "X".toList, none, none, []⟩] "1".toList
    ∧ numberEntryScan [⟨some numberName, some "7".toList⟩, ⟨some numberName, some "8".toList⟩]
        = some "7".toList :=
  ⟨index_at_most_one_bucket.2.1 [charizardVmaxProduct] charizardVmaxProduct
      "1".toList "1".toList (by decide) (by decide),
    index_at_most_one_bucket.2.2.1 [⟨some "X".toList, none, none, []⟩]
      ⟨some "X".toList, none, none, []⟩ (by decide) "1".toList,
    index_at_most_one_bucket.2.2.2 ⟨some numberName, some "7".toList⟩
      [⟨some numberName, some "8".toList⟩] (by decide)⟩

/-- C9: `extract_card_suffixes` returns exactly the subset of the fixed
tag tuple `("vmax", "vstar", "ex", "gx", "v")` whose members occur as
whole words (word-boundary matches) in the lower-cased input; on
`"Zacian V VMAX"` it returns `{"vmax", "v"}`, and `"v"` word-matches the
lowered text only at position 7 (the standalone word), not at position 9
inside `"vmax"`. -/
theorem extract_suffixes_word_boundary :
    (∀ (U : PyUnicode) (text s : List Char),
      s ∈ extract_card_suffixes U text ↔
        s ∈ specialSuffixes ∧ wordOccurs U s (U.lower text) = true)
    ∧ extract_card_suffixes asciiPy "Zacian V VMAX".toList
        = ({"vmax".toList, "v".toList} : Finset (List Char))
    ∧ ((List.range ((asciiPy.lower "Zacian V VMAX".toList).length + 1)).filter
        (fun i => wordOccursAt asciiPy "v".toList (asciiPy.lower "Zacian V VMAX".toList) i))
        = [7] := by
  refine ⟨fun U text s => ?_, by decide, by decide⟩
  rw [extract_card_suffixes, List.mem_toFinset, List.mem_filter]

theorem collapseAux_cons (U : PyUnicode) (b : Bool) (x : Char) (xs : List Char) :
    collapseAux U b (x :: xs) =
      if U.isSpace x then
        (if b then collapseAux U true xs else ' ' :: collapseAux U true xs)
      else x :: collapseAux U false xs := rfl

theorem mem_collapseAux {U : PyUnicode} {c : Char} :
    ∀ {l : List Char} {b : Bool}, c ∈ collapseAux U b l →
      c = ' ' ∨ (c ∈ l ∧ U.isSpace c = false) := by
  intro l
  induction l with
  | nil => intro b h; exact absurd h (List.not_mem_nil c)
  | cons x xs ih =>
    intro b h
    rw [collapseAux_cons] at h
    by_cases hx : U.isSpace x = true
    · rw [if_pos hx] at h
      cases b with
      | true =>
        rw [if_pos rfl] at h
        rcases ih h with h1 | ⟨hm, hs⟩
        · exact Or.inl h1
        · exact Or.inr ⟨List.mem_cons_of_mem x hm, hs⟩
      | false =>
        rw [if_neg (by decide : ¬(false = true))] at h
        rcases List.mem_cons.mp h with h1 | h1
        · exact Or.inl h1
        · rcases ih h1 with h2 | ⟨hm, hs⟩
          · exact Or.inl h2
          · exact Or.inr ⟨List.mem_cons_of_mem x hm, hs⟩
    · rw [if_neg hx] at h
      rcases List.mem_cons.mp h with h1 | h1
      · subst h1
        exact Or.inr ⟨List.mem_cons_self c xs, Bool.eq_false_iff.mpr hx⟩
      · rcases ih h1 with h2 | ⟨hm, hs⟩
        · exact Or.inl h2
        · exact Or.inr ⟨List.mem_cons_of_mem x hm, hs⟩

theorem head_collapseAux_true {U : PyUnicode} :
    ∀ {l : List Char} {c : Char}, (collapseAux U true l).head? = some c →
      U.isSpace c = false := by
  intro l
  induction l with
  | nil => intro c h; exact absurd h (by exact Option.noConfusion)
  | cons x xs ih =>
    intro c h
    rw [collapseAux_cons] at h
    by_cases hx : U.isSpace x = true
    · rw [if_pos hx, if_pos rfl] at h
      exact ih h
    · rw [if_neg hx, List.head?_cons] at h
      rw [← Option.some.inj h]
      exact Bool.eq_false_iff.mpr hx

theorem chain_collapseAux (U : PyUnicode) :
    ∀ (l : List Char) (b : Bool),
      List.Chain' (fun a c => ¬(U.isSpace a = true ∧ U.isSpace c = true))
        (collapseAux U b l) := by
  intro l
  induction l with
  | nil => intro b; exact List.chain'_nil
  | cons x xs ih =>
    intro b
    rw [collapseAux_cons]
    by_cases hx : U.isSpace x = true
    · rw [if_pos hx]
      cases b with
      | true => rw [if_pos rfl]; exact ih true
      | false =>
        rw [if_neg (by decide : ¬(false = true))]
        cases hh : collapseAux U true xs with
        | nil => exact List.chain'_singleton ' '
        | cons y ys =>
          refine List.chain'_cons.mpr ⟨?_, hh ▸ ih true⟩
          have hy : U.isSpace y = false := head_collapseAux_true (by rw [hh]; rfl)
          intro hc
          rw [hy] at hc
          exact Bool.noConfusion hc.2
    · rw [if_neg hx]
      cases hh : collapseAux U false xs with
      | nil => exact List.chain'_singleton x
      | cons y ys =>
        refine List.chain'_cons.mpr ⟨?_, hh ▸ ih false⟩
        intro hc
        exact hx hc.1

theorem mem_stripEnds {U : PyUnicode} {l : List Char} {c : Char}
    (h : c ∈ stripEnds U l) : c ∈ l := by
  unfold stripEnds at h
  rw [List.mem_reverse] at h
  have h1 : c ∈ (l.dropWhile U.isStripSpace).reverse :=
    (List.dropWhile_sublist U.isStripSpace).mem h
  rw [List.mem_reverse] at h1
  exact (List.dropWhile_sublist U.isStripSpace).mem h1

theorem noDouble_stripEnds {U : PyUnicode} {l : List Char}
    (h : NoDoubleSpace l) : NoDoubleSpace (stripEnds U l) := by
  unfold NoDoubleSpace stripEnds
  have flipper : ∀ m : List Char, NoDoubleSpace m → NoDoubleSpace m.reverse := by
    intro m hm
    exact List.chain'_reverse.mpr (hm.imp (fun a b hab hba => hab ⟨hba.2, hba.1⟩))
  have h1 : NoDoubleSpace (l.dropWhile U.isStripSpace) :=
    h.suffix (List.dropWhile_suffix U.isStripSpace)
  have h2 := flipper _ h1
  have h3 : NoDoubleSpace ((l.dropWhile U.isStripSpace).reverse.dropWhile U.isStripSpace) :=
    h2.suffix (List.dropWhile_suffix U.isStripSpace)
  exact flipper _ h3

theorem getLast?_of_suffix {t B : List Char} {c : Char}
    (hc : B.getLast? = some c) : (t ++ B).getLast? = some c := by
  rw [List.getLast?_append, hc]
  rfl

theorem head_dropWhile_false {p : Char → Bool} {l : List Char} {c : Char}
    (h : (l.dropWhile p).head? = some c) : p c = false := by
  have := List.head?_dropWhile_not p l
  rw [h] at this
  exact this

theorem head_stripEnds {U : PyUnicode} {l : List Char} {c : Char}
    (h : (stripEnds U l).head? = some c) : U.isStripSpace c = false := by
  unfold stripEnds at h
  rw [List.head?_reverse] at h
  set A := l.dropWhile U.isStripSpace with hA
  set B := A.reverse.dropWhile U.isStripSpace with hB
  obtain ⟨t, ht⟩ := List.dropWhile_suffix (l := A.reverse) U.isStripSpace
  have h2 : A.reverse.getLast? = some c := ht ▸ getLast?_of_suffix h
  rw [List.getLast?_reverse] at h2
  exact head_dropWhile_false h2

theorem last_stripEnds {U : PyUnicode} {l : List Char} {c : Char}
    (h : (stripEnds U l).getLast? = some c) : U.isStripSpace c = false := by
  unfold stripEnds at h
  rw [List.getLast?_reverse] at h
  exact head_dropWhile_false h

theorem canon_normalize (U : PyUnicode) (hU : NormalizeSane U) (s : List Char) :
    Canon (normalize_text U s) := by
  unfold normalize_text
  set F := ((U.nfd (U.lower s)).filter (fun c => !U.isMn c)).filter (keepChar U) with hF
  refine ⟨?_, ?_, ?_, ?_⟩
  · intro c hc
    have hc1 := mem_stripEnds hc
    rcases mem_collapseAux hc1 with h | ⟨hm, hs⟩
    · exact Or.inr h
    · have hkeep := (List.mem_filter.mp hm).2
      simp only [keepChar, Bool.or_eq_true] at hkeep
      rcases hkeep with h | h
      · exact Or.inl h
      · rw [hs] at h
        exact absurd h Bool.false_ne_true
  · apply noDouble_stripEnds
    refine (chain_collapseAux U F false).imp (fun a b hab h => hab ?_)
    rw [h.1, h.2]
    exact ⟨hU.space_space, hU.space_space⟩
  · intro hh
    have h1 := head_stripEnds hh
    rw [hU.strip_space] at h1
    exact Bool.noConfusion h1
  · intro hh
    have h1 := last_stripEnds hh
    rw [hU.strip_space] at h1
    exact Bool.noConfusion h1

theorem head_ne_space_of_chain {y : Char} {ys : List Char}
    (h : NoDoubleSpace (' ' :: y :: ys)) : y ≠ ' ' := by
  intro hy
  exact (List.chain'_cons.mp h).1 ⟨rfl, hy⟩

theorem collapseAux_fixed (U : PyUnicode) (hU : NormalizeSane U) :
    ∀ (l : List Char), (∀ c ∈ l, GoodChar c) → NoDoubleSpace l →
      ∀ b : Bool, (b = true → l.head? ≠ some ' ') → collapseAux U b l = l := by
  intro l
  induction l with
  | nil => intro _ _ b _; rfl
  | cons x xs ih =>
    intro hchars hchain b hb
    rcases hchars x (List.mem_cons_self x xs) with hx | hx
    · have hsp : U.isSpace x = false := hU.space_letter x hx
      rw [collapseAux_cons, if_neg (by rw [hsp]; exact Bool.noConfusion)]
      rw [ih (fun c hc => hchars c (List.mem_cons_of_mem x hc)) hchain.tail false
        (fun h => Bool.noConfusion h)]
    · subst hx
      cases b with
      | true => exact absurd rfl (hb rfl)
      | false =>
        rw [collapseAux_cons, if_pos hU.space_space,
          if_neg (by decide : ¬(false = true))]
        rw [ih (fun c hc => hchars c (List.mem_cons_of_mem _ hc)) hchain.tail true ?_]
        intro _
        cases xs with
        | nil => exact Option.noConfusion
        | cons y ys =>
          intro h1
          rw [List.head?_cons] at h1
          exact head_ne_space_of_chain hchain (Option.some.inj h1)

theorem dropWhile_eq_self_of_head {p : Char → Bool} {l : List Char}
    (h : ∀ c, l.head? = some c → p c = false) : l.dropWhile p = l := by
  cases l with
  | nil => rfl
  | cons x xs => exact List.dropWhile_cons_of_neg (by simp [h x rfl])

theorem stripEnds_fixed (U : PyUnicode) (hU : NormalizeSane U) (l : List Char)
    (hchars : ∀ c ∈ l, GoodChar c) (hh : l.head? ≠ some ' ')
    (hl : l.getLast? ≠ some ' ') : stripEnds U l = l := by
  unfold stripEnds
  have goodNotStrip : ∀ c : Char, GoodChar c → c ≠ ' ' → U.isStripSpace c = false := by
    intro c hc hne
    rcases hc with hld | hsp
    · exact hU.strip_letter c hld
    · exact absurd hsp hne
  rw [dropWhile_eq_self_of_head (fun c hc => goodNotStrip c
    (hchars c (List.mem_of_mem_head? (Option.mem_def.mpr hc)))
    (fun he => hh (by rw [hc, he])))]
  rw [dropWhile_eq_self_of_head (fun c hc => by
    rw [List.head?_reverse] at hc
    exact goodNotStrip c (hchars c (List.mem_of_mem_getLast? (Option.mem_def.mpr hc)))
      (fun he => hl (by rw [hc, he])))]
  exact List.reverse_reverse l

theorem filters_fixed (U : PyUnicode) (hU : NormalizeSane U) (l : List Char)
    (hchars : ∀ c ∈ l, GoodChar c) :
    ((U.nfd (U.lower l)).filter (fun c => !U.isMn c)).filter (keepChar U) = l := by
  rw [hU.lower_fixed l hchars, hU.nfd_fixed l hchars]
  have h1 : l.filter (fun c => !U.isMn c) = l :=
    List.filter_eq_self.mpr (fun c hc => by rw [hU.mn_ascii c (hchars c hc)]; rfl)
  rw [h1]
  refine List.filter_eq_self.mpr (fun c hc => ?_)
  rcases hchars c hc with h | h
  · simp [keepChar, h]
  · simp [keepChar, h, hU.space_space]

theorem normalize_fixed (U : PyUnicode) (hU : NormalizeSane U) (l : List Char)
    (hc : Canon l) : normalize_text U l = l := by
  obtain ⟨hchars, hchain, hh, hl⟩ := hc
  unfold normalize_text collapseSpaces
  rw [filters_fixed U hU l hchars]
  rw [collapseAux_fixed U hU l hchars hchain false
    (by intro h; exact absurd h Bool.false_ne_true)]
  exact stripEnds_fixed U hU l hchars hh hl

/-- C8: `normalize_text` is idempotent, for every Unicode-table model
that is sane on the output alphabet (ASCII letters/digits/space are
fixed by lower-casing and NFD, are not combining marks, and only the
space is whitespace — all true of the Python runtime). -/
theorem normalize_idempotent (U : PyUnicode) (hU : NormalizeSane U) (s : List Char) :
    normalize_text U (normalize_text U s) = normalize_text U s :=
  normalize_fixed U hU _ (canon_normalize U hU s)

theorem asciiPy_sane : NormalizeSane asciiPy := by
  have hlower : ∀ c : Char, GoodChar c → asciiLower c = c := by
    intro c hc
    rcases hc with h | h
    · simp only [isLetterDigit, Bool.or_eq_true, Bool.and_eq_true, decide_eq_true_eq] at h
      unfold asciiLower
      rw [if_neg]
      omega
    · subst h; decide
  have hspace : ∀ c : Char, isLetterDigit c = true → asciiIsSpace c = false := by
    intro c h
    simp only [isLetterDigit, Bool.or_eq_true, Bool.and_eq_true, decide_eq_true_eq] at h
    simp only [asciiIsSpace, Bool.or_eq_false_iff, beq_eq_false_iff_ne, ne_eq]
    omega
  refine ⟨?_, fun l _ => rfl, fun c _ => rfl, by decide, hspace, by decide, hspace⟩
  intro l hl
  calc l.map asciiLower = l.map id := List.map_congr_left (fun c hc => hlower c (hl c hc))
    _ = l := l.map_id

/-- C8 witness: idempotence at a concrete input via `asciiPy`
(which satisfies `NormalizeSane`). -/
theorem normalize_idempotent_witness :
    normalize_text asciiPy (normalize_text asciiPy "  Raichu  V-UNION!! ".toList)
      = normalize_text asciiPy "  Raichu  V-UNION!! ".toList :=
  normalize_idempotent asciiPy asciiPy_sane ("  Raichu  V-UNION!! ".toList)

/-- C6 counterexample: for the label `" &"` (whose word list after
removing `'&'` is empty) and groups `{"abc": 1}`, exact and fuzzy
resolution fail and the label contains `'&'`, yet the code returns no
group while scanning the claim's three variants would return group 1
(the empty third variant fuzzy-matches every group name). -/
theorem amp_exactly_three_counterexample :
    truthy (dictGet [("abc".toList, 1)] " &".toList) = false ∧
    ([(("abc".toList : List Char), 1)].find?
      (fun g => fuzzyMatches asciiPy (asciiPy.lower " &".toList) g.1)) = none ∧
    " &".toList.contains '&' = true ∧
    find_group_id asciiPy " &".toList [("abc".toList, 1)] = none ∧
    variantLoop asciiPy [("abc".toList, 1)] (claimThreeVariants asciiPy " &".toList)
      = some 1 := by
  decide

/-- C6 amended: when exact and fuzzy resolution fail and the label
contains `'&'`, the resolver scans, in order, (a) the label with `"& "`
and `"&"` removed, (b) the label with `"&"` replaced by `"and"`, and (c)
the upper-cased first-letter abbreviation — the third included only when
the label minus `'&'` has at least one whitespace-separated word — each
variant tried first as exact group lookup, then by the
fuzzy-substring/startswith rule, first hit winning. -/
theorem amp_variants_amended (U : PyUnicode) (s : List Char) (groups : Groups)
    (h1 : truthy (dictGet groups s) = false)
    (h2 : groups.find? (fun g => fuzzyMatches U (U.lower s) g.1) = none)
    (h3 : s.contains '&' = true) :
    find_group_id U s groups = variantLoop U groups (ampVariants U s) ∧
    ampVariants U s =
      (if (splitWs U (replaceAll ampStr [] s)).isEmpty then
        [replaceAll ampStr [] (replaceAll ampSpaceStr [] s), replaceAll ampStr andStr s]
      else claimThreeVariants U s) ∧
    (∀ (vs : List (List Char)) (v : List Char), variantLoop U groups (v :: vs) =
      if truthy (dictGet groups v) then dictGet groups v
      else
        match groups.find? (fun g => variantFuzzy U (U.lower v) g.1) with
        | some g => some g.2
        | none => variantLoop U groups vs) := by
  refine ⟨?_, ?_, fun vs v => rfl⟩
  · rw [find_group_id, h1, h2]
    simp only [Bool.false_eq_true, if_false, h3, Bool.not_true]
  · rw [ampVariants, claimThreeVariants]
    by_cases hw : (splitWs U (replaceAll ampStr [] s)).isEmpty = true
    · simp only [hw, if_true]
    · simp only [Bool.not_eq_true] at hw
      simp only [hw, Bool.false_eq_true, if_false]
      rfl

/-- C6 witness: concrete instance of `amp_variants_amended` where
`"Sun & Moon"` fails exact and fuzzy resolution against `{"SM": 3}` and
then resolves through the abbreviation variant. -/
theorem amp_variants_amended_witness :
    truthy (dictGet [("SM".toList, 3)] "Sun & Moon".toList) = false ∧
    find_group_id asciiPy "Sun & Moon".toList [("SM".toList, 3)]
      = variantLoop asciiPy [("SM".toList, 3)] (ampVariants asciiPy "Sun & Moon".toList) ∧
    find_group_id asciiPy "Sun & Moon".toList [("SM".toList, 3)] = some 3 :=
  ⟨by decide,
    (amp_variants_amended asciiPy "Sun & Moon".toList [("SM".toList, 3)]
      (by decide) (by decide) (by decide)).1,
    by decide⟩

theorem updObs_cardInfo (U : PyUnicode) (o : Obs) (d : DedupedCard) :
    (updObs U o d).cardInfo = d.cardInfo := by
  unfold updObs
  split <;> rfl

/-- C2: deduplication merges all observations sharing an identity key
into exactly one `DedupedCard` (count 1 for present keys, 0 otherwise),
and every deduplicated card carries exactly the source names and set
labels of all contributing observations. -/
theorem dedup_merges_by_key (U : PyUnicode) (obs : List Obs) :
    (∀ k : List Char × List Char,
      (dedupe_cards U obs).countP (fun d => decide (dedupeKey U d.cardInfo = k))
        = if obs.any (fun o => decide (dedupeKey U o.2.2 = k)) then 1 else 0)
    ∧ (∀ d ∈ dedupe_cards U obs,
      d.sourceNames = ((obs.filter
          (fun o => decide (dedupeKey U o.2.2 = dedupeKey U d.cardInfo))).map
          (fun o => o.1)).toFinset
      ∧ d.setLabels = ((obs.filter
          (fun o => decide (dedupeKey U o.2.2 = dedupeKey U d.cardInfo))).map
          (fun o => o.2.1)).toFinset) := by
  induction obs using List.reverseRecOn with
  | nil => exact ⟨fun k => rfl, fun d hd => absurd hd (List.not_mem_nil d)⟩
  | append_singleton obs o ih =>
    obtain ⟨ihc, ihm⟩ := ih
    have hfold : dedupe_cards U (obs ++ [o]) = addObservation U (dedupe_cards U obs) o := by
      rw [dedupe_cards, List.foldl_append]
      rfl
    set A := dedupe_cards U obs with hA
    set ko := dedupeKey U o.2.2 with hko
    by_cases hmatch : A.any (fun d => decide (dedupeKey U d.cardInfo = ko)) = true
    · -- an existing card has the key: the map/update path
      have hadd : dedupe_cards U (obs ++ [o]) = A.map (updObs U o) := by
        rw [hfold, addObservation, if_pos hmatch]
      constructor
      · intro k
        have hcnt : (A.map (updObs U o)).countP (fun d => decide (dedupeKey U d.cardInfo = k))
            = A.countP (fun d => decide (dedupeKey U d.cardInfo = k)) := by
          rw [List.countP_map]
          refine List.countP_congr (fun d _ => ?_)
          simp only [Function.comp_apply, updObs_cardInfo]
        rw [hadd, hcnt, ihc k, List.any_append]
        by_cases hk : ko = k
        · subst hk
          have h1 : (List.any [o] fun o' => decide (dedupeKey U o'.2.2 = ko)) = true := by
            simp
          have h2 : obs.any (fun o' => decide (dedupeKey U o'.2.2 = ko)) = true := by
            by_contra hcon
            rw [Bool.not_eq_true] at hcon
            have h3 := ihc ko
            rw [hcon, if_neg (by simp : ¬(false = true))] at h3
            have h4 : 0 < A.countP (fun d => decide (dedupeKey U d.cardInfo = ko)) := by
              rw [List.countP_pos_iff]
              obtain ⟨d, hd, hpd⟩ := List.any_eq_true.mp hmatch
              exact ⟨d, hd, hpd⟩
            rw [h3] at h4
            exact absurd h4 (by simp)
          rw [h1, h2]
          rfl
        · have h1 : (List.any [o] fun o' => decide (dedupeKey U o'.2.2 = k)) = false := by
            simp [hko ▸ hk]
          rw [h1, Bool.or_false]
      · intro d' hd'
        rw [hadd] at hd'
        obtain ⟨d, hd, hupd⟩ := List.mem_map.mp hd'
        by_cases hkey : dedupeKey U d.cardInfo = ko
        · have hd'eq : d' = { d with
              setLabels := insert o.2.1 d.setLabels
              sourceNames := insert o.1 d.sourceNames } := by
            rw [← hupd, updObs, if_pos (by simp [hkey])]
          have hci : d'.cardInfo = d.cardInfo := by rw [hd'eq]
          have hfilter : (obs ++ [o]).filter
              (fun o' => decide (dedupeKey U o'.2.2 = dedupeKey U d'.cardInfo))
              = obs.filter
                (fun o' => decide (dedupeKey U o'.2.2 = dedupeKey U d.cardInfo)) ++ [o] := by
            rw [List.filter_append, hci]
            congr 1
            simp [hkey, hko]
          obtain ⟨ihs, ihl⟩ := ihm d hd
          constructor
          · rw [hfilter, List.map_append, List.toFinset_append, hd'eq]
            show insert o.1 d.sourceNames = _
            rw [ihs, List.map_cons, List.map_nil, List.toFinset_cons, List.toFinset_nil, Finset.union_comm,
              Finset.insert_union, Finset.empty_union]
          · rw [hfilter, List.map_append, List.toFinset_append, hd'eq]
            show insert o.2.1 d.setLabels = _
            rw [ihl, List.map_cons, List.map_nil, List.toFinset_cons, List.toFinset_nil, Finset.union_comm,
              Finset.insert_union, Finset.empty_union]
        · have hd'eq : d' = d := by
            rw [← hupd, updObs, if_neg (by simp [hkey])]
          subst hd'eq
          have hfilter : (obs ++ [o]).filter
              (fun o' => decide (dedupeKey U o'.2.2 = dedupeKey U d'.cardInfo))
              = obs.filter
                (fun o' => decide (dedupeKey U o'.2.2 = dedupeKey U d'.cardInfo)) := by
            rw [List.filter_append]
            have : (List.filter (fun o' => decide (dedupeKey U o'.2.2 = dedupeKey U d'.cardInfo))
                [o]) = [] := by
              simp only [List.filter_cons, List.filter_nil]
              rw [if_neg]
              simp only [decide_eq_true_eq]
              exact fun h => hkey (hko ▸ h.symm)
            rw [this, List.append_nil]
          rw [hfilter]
          exact ihm d' hd
    · -- no existing card has the key: the append path
      rw [Bool.not_eq_true] at hmatch
      have hadd : dedupe_cards U (obs ++ [o])
          = A ++ [⟨o.2.2, {o.2.1}, {o.1}⟩] := by
        rw [hfold, addObservation, if_neg (by rw [hmatch]; exact Bool.noConfusion)]
      have hnomem : ∀ d ∈ A, ¬(dedupeKey U d.cardInfo = ko) := by
        intro d hd
        have := List.any_eq_false.mp hmatch d hd
        simpa using this
      have hcntA : A.countP (fun d => decide (dedupeKey U d.cardInfo = ko)) = 0 := by
        rw [List.countP_eq_zero]
        intro d hd
        simp [hnomem d hd]
      have hobsany : obs.any (fun o' => decide (dedupeKey U o'.2.2 = ko)) = false := by
        by_contra hcon
        rw [Bool.not_eq_false] at hcon
        have h3 := ihc ko
        rw [hcon, if_pos rfl, hcntA] at h3
        exact absurd h3 (by simp)
      constructor
      · intro k
        rw [hadd, List.countP_append, ihc k, List.any_append]
        by_cases hk : ko = k
        · subst hk
          have h1 : (List.countP (fun d => decide (dedupeKey U d.cardInfo = ko))
              ([⟨o.2.2, {o.2.1}, {o.1}⟩] : List DedupedCard)) = 1 := by simp [hko]
          rw [h1, hobsany]
          have h2 : (List.any [o] fun o' => decide (dedupeKey U o'.2.2 = ko)) = true := by
            simp [hko]
          rw [h2]
          rfl
        · have h1 : (List.countP (fun d => decide (dedupeKey U d.cardInfo = k))
              ([⟨o.2.2, {o.2.1}, {o.1}⟩] : List DedupedCard)) = 0 := by
            simp only [List.countP_cons, List.countP_nil]
            rw [if_neg]
            simp only [decide_eq_true_eq]
            exact fun h => hk (hko ▸ h)
          have h2 : (List.any [o] fun o' => decide (dedupeKey U o'.2.2 = k)) = false := by
            simp only [List.any_cons, List.any_nil, Bool.or_false]
            rw [decide_eq_false]
            exact fun h => hk (hko ▸ h)
          rw [h1, h2, Bool.or_false, Nat.add_zero]
      · intro d hd
        rw [hadd] at hd
        rcases List.mem_append.mp hd with hdA | hdnew
        · have hfilter : (obs ++ [o]).filter
              (fun o' => decide (dedupeKey U o'.2.2 = dedupeKey U d.cardInfo))
              = obs.filter
                (fun o' => decide (dedupeKey U o'.2.2 = dedupeKey U d.cardInfo)) := by
            rw [List.filter_append]
            have : (List.filter (fun o' => decide (dedupeKey U o'.2.2 = dedupeKey U d.cardInfo))
                [o]) = [] := by
              simp only [List.filter_cons, List.filter_nil]
              rw [if_neg]
              simp only [decide_eq_true_eq]
              exact fun h => hnomem d hdA (hko ▸ h.symm)
            rw [this, List.append_nil]
          rw [hfilter]
          exact ihm d hdA
        · have hdeq : d = ⟨o.2.2, {o.2.1}, {o.1}⟩ := by
            rcases List.mem_singleton.mp hdnew with h
            exact h
          subst hdeq
          have hobsfilter : obs.filter
              (fun o' => decide (dedupeKey U o'.2.2 = dedupeKey U o.2.2)) = [] := by
            rw [List.filter_eq_nil_iff]
            intro o' ho'
            have := List.any_eq_false.mp hobsany o' ho'
            simpa [hko] using this
          have hfilter : (obs ++ [o]).filter
              (fun o' => decide (dedupeKey U o'.2.2 = dedupeKey U o.2.2)) = [o] := by
            rw [List.filter_append, hobsfilter, List.nil_append]
            simp
          constructor
          · show ({o.1} : Finset (List Char)) = _
            rw [hfilter]
            simp
          · show ({o.2.1} : Finset (List Char)) = _
            rw [hfilter]
            simp

/-- C2 witness: the two-source overlap scenario merges into one card
carrying both source names and both set labels. -/
theorem dedup_merges_by_key_witness :
    mergedPikachu.sourceNames
      = ((obsTwoSources.filter (fun o =>
          decide (dedupeKey asciiPy o.2.2 = dedupeKey asciiPy mergedPikachu.cardInfo))).map
          (fun o => o.1)).toFinset
    ∧ mergedPikachu.setLabels
      = ((obsTwoSources.filter (fun o =>
          decide (dedupeKey asciiPy o.2.2 = dedupeKey asciiPy mergedPikachu.cardInfo))).map
          (fun o => o.2.1)).toFinset :=
  (dedup_merges_by_key asciiPy obsTwoSources).2 mergedPikachu (by decide)

theorem idxOf_eq_def (st : Caches) (g : Nat) (ps : List Product) :
    idxOf st g ps = match st.index g with
      | some i => i
      | none => if ps.isEmpty then emptyIndex else build_products_index ps := rfl

theorem effIdx_eq_def (svc : Service) (st : Caches) (g : Nat) :
    effIdx svc st g = match st.products g with
      | some ps => Except.ok (idxOf st g ps)
      | none => (svc g).map (idxOf st g) := rfl

theorem updateProducts_index (st : Caches) (g : Nat) (ps : List Product) :
    (updateProducts st g ps).index = st.index := rfl

theorem updateProducts_products_self (st : Caches) (g : Nat) (ps : List Product) :
    (updateProducts st g ps).products g = some ps := by
  show (if g == g then some ps else st.products g) = some ps
  simp

theorem updateProducts_products_other (st : Caches) (g : Nat) (ps : List Product)
    (g' : Nat) (h : ¬(g' = g)) : (updateProducts st g ps).products g' = st.products g' := by
  show (if g' == g then some ps else st.products g') = st.products g'
  simp [h]

theorem maybeIndex_products (st : Caches) (g : Nat) (ps : List Product) :
    (maybeIndex st g ps).products = st.products := by
  rw [maybeIndex]
  split <;> rfl

theorem maybeIndex_index_other (st : Caches) (g : Nat) (ps : List Product)
    (g' : Nat) (h : ¬(g' = g)) : (maybeIndex st g ps).index g' = st.index g' := by
  rw [maybeIndex]
  split
  · show (if g' == g then _ else st.index g') = st.index g'
    simp [h]
  · rfl

theorem maybeIndex_index_self (st : Caches) (g : Nat) (ps : List Product) :
    (maybeIndex st g ps).index g =
      if (!ps.isEmpty && (st.index g).isNone) = true then some (build_products_index ps)
      else st.index g := by
  by_cases hc : (!ps.isEmpty && (st.index g).isNone) = true
  · rw [maybeIndex, if_pos hc, if_pos hc]
    show (if g == g then _ else st.index g) = _
    simp
  · rw [maybeIndex, if_neg hc, if_neg hc]

theorem getIdx_maybeIndex (st : Caches) (g : Nat) (ps : List Product) :
    getIdx (maybeIndex st g ps) g = idxOf st g ps := by
  rw [getIdx, maybeIndex_index_self, idxOf_eq_def]
  cases hio : st.index g with
  | some i => simp
  | none =>
    by_cases he : ps.isEmpty
    · simp [he, getIdx]
    · simp [he, getIdx]

theorem idxOf_maybeIndex (st : Caches) (g : Nat) (ps : List Product) :
    idxOf (maybeIndex st g ps) g ps = idxOf st g ps := by
  rw [idxOf_eq_def, idxOf_eq_def, maybeIndex_index_self]
  cases hio : st.index g with
  | some i => simp
  | none =>
    by_cases he : ps.isEmpty
    · simp [he]
    · simp [he]

theorem effIdx_congr (svc : Service) (st' st : Caches) (g : Nat)
    (hp : st'.products g = st.products g) (hi : st'.index g = st.index g) :
    effIdx svc st' g = effIdx svc st g := by
  have hidx : idxOf st' g = idxOf st g := by
    funext ps
    rw [idxOf_eq_def, idxOf_eq_def, hi]
  rw [effIdx_eq_def, effIdx_eq_def, hp, hidx]

theorem ensure_error (svc : Service) (g : Nat) (st : Caches) (e : Exc) (st' : Caches)
    (h : ensure_products svc g st = (Except.error e, st')) :
    st' = st ∧ effIdx svc st g = Except.error e := by
  rw [ensure_products] at h
  cases hp : st.products g with
  | some ps =>
    rw [hp] at h
    exact absurd (congrArg Prod.fst h) (by simp)
  | none =>
    rw [hp] at h
    cases hs : svc g with
    | error e' =>
      rw [hs] at h
      obtain ⟨h1, h2⟩ := Prod.mk.injEq .. ▸ h
      refine ⟨h2.symm, ?_⟩
      rw [effIdx_eq_def, hp, hs]
      rw [Except.error.inj h1]
      rfl
    | ok ps =>
      rw [hs] at h
      exact absurd (congrArg Prod.fst h) (by simp)

theorem ensure_ok (svc : Service) (g : Nat) (st : Caches) (ps : List Product) (st' : Caches)
    (h : ensure_products svc g st = (Except.ok ps, st')) :
    effIdx svc st g = Except.ok (getIdx st' g)
    ∧ (∀ g', effIdx svc st' g' = effIdx svc st g') := by
  rw [ensure_products] at h
  cases hp : st.products g with
  | some ps0 =>
    rw [hp] at h
    have hst' : st' = maybeIndex st g ps0 := (congrArg Prod.snd h).symm
    constructor
    · rw [effIdx_eq_def, hp, hst', getIdx_maybeIndex]
    · intro g'
      by_cases hg : g' = g
      · subst hg
        rw [hst']
        rw [effIdx_eq_def, effIdx_eq_def, congrFun (maybeIndex_products st g' ps0) g', hp]
        show Except.ok (idxOf (maybeIndex st g' ps0) g' ps0) = Except.ok (idxOf st g' ps0)
        rw [idxOf_maybeIndex]
      · rw [hst']
        exact effIdx_congr svc _ st g'
          (congrFun (maybeIndex_products st g ps0) g') (maybeIndex_index_other st g ps0 g' hg)
  | none =>
    rw [hp] at h
    cases hs : svc g with
    | error e =>
      rw [hs] at h
      exact absurd (congrArg Prod.fst h) (by simp)
    | ok ps0 =>
      rw [hs] at h
      have hst' : st' = maybeIndex (updateProducts st g ps0) g ps0 := (congrArg Prod.snd h).symm
      have hupi : (updateProducts st g ps0).index = st.index := rfl
      have hidxu : idxOf (updateProducts st g ps0) g ps0 = idxOf st g ps0 := by
        rw [idxOf_eq_def, idxOf_eq_def, hupi]
      constructor
      · rw [effIdx_eq_def, hp, hs, hst', getIdx_maybeIndex]
        show Except.ok (idxOf st g ps0) = _
        rw [hidxu]
      · intro g'
        by_cases hg : g' = g
        · subst hg
          rw [hst']
          rw [effIdx_eq_def, effIdx_eq_def,
            congrFun (maybeIndex_products (updateProducts st g' ps0) g' ps0) g',
            updateProducts_products_self, hp, hs]
          show Except.ok (idxOf (maybeIndex (updateProducts st g' ps0) g' ps0) g' ps0)
            = Except.map (idxOf st g') (Except.ok ps0)
          rw [idxOf_maybeIndex, hidxu]
          rfl
        · rw [hst']
          refine effIdx_congr svc _ st g' ?_ ?_
          · rw [congrFun (maybeIndex_products (updateProducts st g ps0) g ps0) g']
            exact updateProducts_products_other st g ps0 g' hg
          · rw [maybeIndex_index_other (updateProducts st g ps0) g ps0 g' hg]
            rfl

theorem promoFirstHit_cons (U : PyUnicode) (card : CardInfo) (set_name : List Char)
    (svc : Service) (st : Caches) (pg : List Char × Nat) (rest : List (List Char × Nat)) :
    promoFirstHit U card set_name svc st (pg :: rest) =
      match effIdx svc st pg.2 with
      | Except.error e => Except.error e
      | Except.ok idx =>
        match match_card_to_product U card idx with
        | some product => Except.ok (some (extract_result product pg.1 set_name card))
        | none => promoFirstHit U card set_name svc st rest := rfl

theorem promoFirstHit_congr (U : PyUnicode) (card : CardInfo) (set_name : List Char)
    (svc : Service) (st1 st2 : Caches) (h : ∀ g, effIdx svc st1 g = effIdx svc st2 g) :
    ∀ l, promoFirstHit U card set_name svc st1 l = promoFirstHit U card set_name svc st2 l := by
  intro l
  induction l with
  | nil => rfl
  | cons pg rest ih =>
    rw [promoFirstHit_cons, promoFirstHit_cons, h pg.2, ih]

theorem promoLoop_cons (U : PyUnicode) (card : CardInfo) (set_name : List Char)
    (svc : Service) (pg : List Char × Nat) (rest : List (List Char × Nat)) (st : Caches) :
    promoLoop U card set_name svc (pg :: rest) st =
      match (ensure_products svc pg.2 st).1 with
      | Except.error e => (Except.error e, (ensure_products svc pg.2 st).2)
      | Except.ok _ =>
        match match_card_to_product U card (getIdx (ensure_products svc pg.2 st).2 pg.2) with
        | some product =>
          (Except.ok (some (extract_result product pg.1 set_name card)),
            (ensure_products svc pg.2 st).2)
        | none => promoLoop U card set_name svc rest (ensure_products svc pg.2 st).2 := rfl

theorem promoLoop_eq (U : PyUnicode) (card : CardInfo) (set_name : List Char)
    (svc : Service) : ∀ (l : List (List Char × Nat)) (st : Caches),
    (promoLoop U card set_name svc l st).1 = promoFirstHit U card set_name svc st l
    ∧ (∀ g', effIdx svc (promoLoop U card set_name svc l st).2 g' = effIdx svc st g') := by
  intro l
  induction l with
  | nil => intro st; exact ⟨rfl, fun g' => rfl⟩
  | cons pg rest ih =>
    intro st
    rw [promoLoop_cons, promoFirstHit_cons]
    cases hres : ensure_products svc pg.2 st with
    | mk r1 st' =>
      cases r1 with
      | error e =>
        obtain ⟨hst, heff⟩ := ensure_error svc pg.2 st e st' hres
        dsimp only
        rw [heff]
        exact ⟨rfl, fun g' => by rw [hst]⟩
      | ok ps =>
        obtain ⟨heff, hpres⟩ := ensure_ok svc pg.2 st ps st' hres
        dsimp only
        rw [heff]
        dsimp only
        cases hm : match_card_to_product U card (getIdx st' pg.2) with
        | some product =>
          exact ⟨rfl, fun g' => hpres g'⟩
        | none =>
          dsimp only
          obtain ⟨ih1, ih2⟩ := ih st'
          refine ⟨?_, fun g' => (ih2 g').trans (hpres g')⟩
          rw [ih1]
          exact promoFirstHit_congr U card set_name svc st' st hpres rest

theorem body_promo_case (U : PyUnicode) (card : CardInfo) (set_name0 : List Char)
    (groups : Groups) (svc : Service) (st : Caches)
    (h1 : find_group_id U (fix_set_name set_name0) groups = none)
    (h2 : isSubstring promoToken (U.lower (fix_set_name set_name0)) = true) :
    get_card_details_body U card set_name0 groups svc st =
      match (promoLoop U card (fix_set_name set_name0) svc (promoGroups U groups) st).1 with
      | Except.error e =>
        (Except.error e,
          (promoLoop U card (fix_set_name set_name0) svc (promoGroups U groups) st).2)
      | Except.ok (some r) =>
        (Except.ok (some r),
          (promoLoop U card (fix_set_name set_name0) svc (promoGroups U groups) st).2)
      | Except.ok none =>
        (Except.ok none,
          (promoLoop U card (fix_set_name set_name0) svc (promoGroups U groups) st).2) := by
  simp only [get_card_details_body, main_phase, h1, h2, truthy, Bool.not_false,
    Bool.true_and, if_true]

/-- C5: for a card whose (typo-corrected) set label resolves to no group
id and whose label contains `"promo"` case-insensitively, the
orchestrator's result is exactly the first-success scan over the groups
whose (lower-cased) names contain `"promo"`: per group the ensured
product index is consulted, the match attempted, and the first success
is returned annotated with that promo group's name (a raised fetch
exception yields "no match" through the per-card boundary). -/
theorem promo_fallback_first_success (U : PyUnicode) (card : CardInfo)
    (set_name0 : List Char) (groups : Groups) (svc : Service) (st : Caches)
    (h1 : find_group_id U (fix_set_name set_name0) groups = none)
    (h2 : isSubstring promoToken (U.lower (fix_set_name set_name0)) = true) :
    (get_card_details U card set_name0 groups svc st).1 =
      match promoFirstHit U card (fix_set_name set_name0) svc st (promoGroups U groups) with
      | Except.error _ => none
      | Except.ok r => r := by
  have hbody := body_promo_case U card set_name0 groups svc st h1 h2
  obtain ⟨hp1, _⟩ := promoLoop_eq U card (fix_set_name set_name0) svc (promoGroups U groups) st
  rw [← hp1]
  simp only [get_card_details]
  rw [hbody]
  cases hP : (promoLoop U card (fix_set_name set_name0) svc (promoGroups U groups) st).1 with
  | error e => rfl
  | ok r =>
    cases r with
    | none => rfl
    | some x => rfl

/-- C5 witness: concrete promo-fallback resolution — label
`"zzz promo"` resolves to no group, and the card is found in the promo
group `"Promo A"`, whose name annotates the result. -/
theorem promo_fallback_first_success_witness :
    find_group_id asciiPy (fix_set_name "zzz promo".toList) [("Promo A".toList, 5)] = none
    ∧ (get_card_details asciiPy ⟨"Pikachu".toList, "25".toList, []⟩ "zzz promo".toList
        [("Promo A".toList, 5)] (fun _ => Except.ok [pikachuProduct]) emptyCaches).1 =
      (match promoFirstHit asciiPy ⟨"Pikachu".toList, "25".toList, []⟩
          (fix_set_name "zzz promo".toList) (fun _ => Except.ok [pikachuProduct]) emptyCaches
          (promoGroups asciiPy [("Promo A".toList, 5)]) with
      | Except.error _ => none
      | Except.ok r => r)
    ∧ (get_card_details asciiPy ⟨"Pikachu".toList, "25".toList, []⟩ "zzz promo".toList
        [("Promo A".toList, 5)] (fun _ => Except.ok [pikachuProduct]) emptyCaches).1 =
      some (extract_result pikachuProduct "Promo A".toList "zzz promo".toList
        ⟨"Pikachu".toList, "25".toList, []⟩) :=
  ⟨by decide,
    promo_fallback_first_success asciiPy ⟨"Pikachu".toList, "25".toList, []⟩
      "zzz promo".toList [("Promo A".toList, 5)] (fun _ => Except.ok [pikachuProduct])
      emptyCaches (by decide) (by decide),
    by decide⟩

theorem fallbackFirstHit_cons (U : PyUnicode) (card : CardInfo) (svc : Service)
    (variants : List (List Char)) (g0 : Nat) (st : Caches) (gp : List Char × Nat)
    (rest : List (List Char × Nat)) :
    fallbackFirstHit U card svc variants g0 st (gp :: rest) =
      if gp.2 == g0 then fallbackFirstHit U card svc variants g0 st rest
      else if variants.any (fun v => isSubstring v (U.lower gp.1)) then
        match effIdx svc st gp.2 with
        | Except.error e => Except.error e
        | Except.ok idx =>
          match match_card_to_product U card idx with
          | some p => Except.ok (some (gp.1, p))
          | none => fallbackFirstHit U card svc variants g0 st rest
      else fallbackFirstHit U card svc variants g0 st rest := rfl

theorem fallbackFirstHit_congr (U : PyUnicode) (card : CardInfo) (svc : Service)
    (variants : List (List Char)) (g0 : Nat) (st1 st2 : Caches)
    (h : ∀ g, effIdx svc st1 g = effIdx svc st2 g) :
    ∀ l, fallbackFirstHit U card svc variants g0 st1 l
      = fallbackFirstHit U card svc variants g0 st2 l := by
  intro l
  induction l with
  | nil => rfl
  | cons gp rest ih =>
    rw [fallbackFirstHit_cons, fallbackFirstHit_cons, h gp.2, ih]

theorem fallbackLoop_cons (U : PyUnicode) (card : CardInfo) (svc : Service)
    (variants : List (List Char)) (g0 : Nat) (gp : List Char × Nat)
    (rest : List (List Char × Nat)) (st : Caches) :
    fallbackLoop U card svc variants g0 (gp :: rest) st =
      if gp.2 == g0 then fallbackLoop U card svc variants g0 rest st
      else if variants.any (fun v => isSubstring v (U.lower gp.1)) then
        match (ensure_products svc gp.2 st).1 with
        | Except.error e => (Except.error e, (ensure_products svc gp.2 st).2)
        | Except.ok _ =>
          match match_card_to_product U card (getIdx (ensure_products svc gp.2 st).2 gp.2) with
          | some p => (Except.ok (some (gp.1, p)), (ensure_products svc gp.2 st).2)
          | none => fallbackLoop U card svc variants g0 rest (ensure_products svc gp.2 st).2
      else fallbackLoop U card svc variants g0 rest st := rfl

theorem fallbackLoop_eq (U : PyUnicode) (card : CardInfo) (svc : Service)
    (variants : List (List Char)) (g0 : Nat) :
    ∀ (l : List (List Char × Nat)) (st : Caches),
    (fallbackLoop U card svc variants g0 l st).1 = fallbackFirstHit U card svc variants g0 st l
    ∧ (∀ g', effIdx svc (fallbackLoop U card svc variants g0 l st).2 g' = effIdx svc st g') := by
  intro l
  induction l with
  | nil => intro st; exact ⟨rfl, fun g' => rfl⟩
  | cons gp rest ih =>
    intro st
    rw [fallbackLoop_cons, fallbackFirstHit_cons]
    by_cases hskip : (gp.2 == g0) = true
    · rw [if_pos hskip, if_pos hskip]
      exact ih st
    · rw [if_neg hskip, if_neg hskip]
      by_cases hvar : (variants.any (fun v => isSubstring v (U.lower gp.1))) = true
      · rw [if_pos hvar, if_pos hvar]
        cases hres : ensure_products svc gp.2 st with
        | mk r1 st' =>
          cases r1 with
          | error e =>
            obtain ⟨hst, heff⟩ := ensure_error svc gp.2 st e st' hres
            dsimp only
            rw [heff]
            exact ⟨rfl, fun g' => by rw [hst]⟩
          | ok ps =>
            obtain ⟨heff, hpres⟩ := ensure_ok svc gp.2 st ps st' hres
            dsimp only
            rw [heff]
            dsimp only
            cases hm : match_card_to_product U card (getIdx st' gp.2) with
            | some p =>
              exact ⟨rfl, fun g' => hpres g'⟩
            | none =>
              dsimp only
              obtain ⟨ih1, ih2⟩ := ih st'
              refine ⟨?_, fun g' => (ih2 g').trans (hpres g')⟩
              rw [ih1]
              exact fallbackFirstHit_congr U card svc variants g0 st' st hpres rest
      · rw [if_neg hvar, if_neg hvar]
        exact ih st

theorem main_phase_eq (U : PyUnicode) (card : CardInfo) (set_name : List Char)
    (groups : Groups) (svc : Service) (group_id : Option Nat) (st1 st : Caches)
    (hpre : ∀ g', effIdx svc st1 g' = effIdx svc st g') :
    (main_phase U card set_name groups svc group_id st1).1
      = pure_main U card set_name groups svc group_id st
    ∧ (∀ g', effIdx svc (main_phase U card set_name groups svc group_id st1).2 g'
        = effIdx svc st g') := by
  simp only [main_phase, pure_main]
  by_cases htr : (!truthy group_id) = true
  · rw [if_pos htr, if_pos htr]
    exact ⟨rfl, fun g' => hpre g'⟩
  · rw [if_neg htr, if_neg htr]
    cases hres : ensure_products svc (group_id.getD 0) st1 with
    | mk r1 st2 =>
      cases r1 with
      | error e =>
        obtain ⟨hst, heff⟩ := ensure_error svc (group_id.getD 0) st1 e st2 hres
        dsimp only
        rw [← hpre (group_id.getD 0), heff]
        exact ⟨rfl, fun g' => by rw [hst]; exact hpre g'⟩
      | ok ps =>
        obtain ⟨heff, hpres2⟩ := ensure_ok svc (group_id.getD 0) st1 ps st2 hres
        have heff' : effIdx svc st (group_id.getD 0)
            = Except.ok (getIdx st2 (group_id.getD 0)) :=
          (hpre (group_id.getD 0)).symm.trans heff
        dsimp only
        rw [heff']
        dsimp only
        cases hm : match_card_to_product U card (getIdx st2 (group_id.getD 0)) with
        | some product =>
          exact ⟨rfl, fun g' => (hpres2 g').trans (hpre g')⟩
        | none =>
          dsimp only
          obtain ⟨hf1, hf2⟩ := fallbackLoop_eq U card svc (fallbackVariants U set_name)
            (group_id.getD 0) groups st2
          have hfcongr : fallbackFirstHit U card svc (fallbackVariants U set_name)
              (group_id.getD 0) st2 groups
              = fallbackFirstHit U card svc (fallbackVariants U set_name)
                (group_id.getD 0) st groups :=
            fallbackFirstHit_congr U card svc (fallbackVariants U set_name) (group_id.getD 0)
              st2 st (fun g' => (hpres2 g').trans (hpre g')) groups
          rw [hf1, hfcongr]
          have hstate : ∀ g', effIdx svc
              (fallbackLoop U card svc (fallbackVariants U set_name)
                (group_id.getD 0) groups st2).2 g' = effIdx svc st g' :=
            fun g' => ((hf2 g').trans (hpres2 g')).trans (hpre g')
          cases hfb : fallbackFirstHit U card svc (fallbackVariants U set_name)
              (group_id.getD 0) st groups with
          | error e => exact ⟨rfl, hstate⟩
          | ok r =>
            cases r with
            | none => exact ⟨rfl, hstate⟩
            | some gp => exact ⟨rfl, hstate⟩

theorem pure_main_congr (U : PyUnicode) (card : CardInfo) (set_name : List Char)
    (groups : Groups) (svc : Service) (group_id : Option Nat) (st1 st2 : Caches)
    (h : ∀ g, effIdx svc st1 g = effIdx svc st2 g) :
    pure_main U card set_name groups svc group_id st1
      = pure_main U card set_name groups svc group_id st2 := by
  simp only [pure_main]
  by_cases htr : (!truthy group_id) = true
  · rw [if_pos htr, if_pos htr]
  · rw [if_neg htr, if_neg htr, h (group_id.getD 0),
      fallbackFirstHit_congr U card svc (fallbackVariants U set_name) (group_id.getD 0)
        st1 st2 h groups]

theorem pure_body_congr (U : PyUnicode) (card : CardInfo) (sn : List Char)
    (groups : Groups) (svc : Service) (st1 st2 : Caches)
    (h : ∀ g, effIdx svc st1 g = effIdx svc st2 g) :
    pure_body U card sn groups svc st1 = pure_body U card sn groups svc st2 := by
  simp only [pure_body]
  rw [promoFirstHit_congr U card (fix_set_name sn) svc st1 st2 h (promoGroups U groups),
    pure_main_congr U card (fix_set_name sn) groups svc
      (find_group_id U (fix_set_name sn) groups) st1 st2 h]

theorem pure_result_congr (U : PyUnicode) (card : CardInfo) (sn : List Char)
    (groups : Groups) (svc : Service) (st1 st2 : Caches)
    (h : ∀ g, effIdx svc st1 g = effIdx svc st2 g) :
    pure_result U card sn groups svc st1 = pure_result U card sn groups svc st2 := by
  simp only [pure_result]
  rw [pure_body_congr U card sn groups svc st1 st2 h]

theorem body_eq_pure (U : PyUnicode) (card : CardInfo) (sn : List Char)
    (groups : Groups) (svc : Service) (st : Caches) :
    (get_card_details_body U card sn groups svc st).1 = pure_body U card sn groups svc st
    ∧ (∀ g', effIdx svc (get_card_details_body U card sn groups svc st).2 g'
        = effIdx svc st g') := by
  simp only [get_card_details_body, pure_body]
  by_cases hcond : (!truthy (find_group_id U (fix_set_name sn) groups)
      && isSubstring promoToken (U.lower (fix_set_name sn))) = true
  · rw [if_pos hcond, if_pos hcond]
    obtain ⟨hp1, hp2⟩ := promoLoop_eq U card (fix_set_name sn) svc (promoGroups U groups) st
    rw [hp1]
    cases hP : promoFirstHit U card (fix_set_name sn) svc st (promoGroups U groups) with
    | error e => exact ⟨rfl, hp2⟩
    | ok r =>
      cases r with
      | some x => exact ⟨rfl, hp2⟩
      | none =>
        exact main_phase_eq U card (fix_set_name sn) groups svc
          (find_group_id U (fix_set_name sn) groups) _ st hp2
  · rw [if_neg hcond, if_neg hcond]
    dsimp only
    exact main_phase_eq U card (fix_set_name sn) groups svc
      (find_group_id U (fix_set_name sn) groups) st st (fun g' => rfl)

theorem gcd_eq_pure (U : PyUnicode) (card : CardInfo) (sn : List Char)
    (groups : Groups) (svc : Service) (st : Caches) :
    (get_card_details U card sn groups svc st).1 = pure_result U card sn groups svc st
    ∧ (∀ g', effIdx svc (get_card_details U card sn groups svc st).2 g'
        = effIdx svc st g') := by
  obtain ⟨hb1, hb2⟩ := body_eq_pure U card sn groups svc st
  simp only [get_card_details, pure_result]
  cases hB : get_card_details_body U card sn groups svc st with
  | mk r st' =>
    rw [hB] at hb1 hb2
    cases r with
    | error e =>
      refine ⟨?_, fun g' => hb2 g'⟩
      rw [← hb1]
    | ok v =>
      refine ⟨?_, fun g' => hb2 g'⟩
      rw [← hb1]

theorem batch_results_cons (U : PyUnicode) (groups : Groups) (svc : Service) (st : Caches)
    (t : CardInfo × List Char) (rest : List (CardInfo × List Char)) :
    batch_results U groups svc st (t :: rest) =
      match pure_result U t.1 t.2 groups svc st with
      | some x => x :: batch_results U groups svc st rest
      | none => batch_results U groups svc st rest := rfl

theorem batch_results_congr (U : PyUnicode) (groups : Groups) (svc : Service)
    (st1 st2 : Caches) (h : ∀ g, effIdx svc st1 g = effIdx svc st2 g) :
    ∀ l, batch_results U groups svc st1 l = batch_results U groups svc st2 l := by
  intro l
  induction l with
  | nil => rfl
  | cons t rest ih =>
    rw [batch_results_cons, batch_results_cons, pure_result_congr U t.1 t.2 groups svc
      st1 st2 h, ih]

theorem process_batch_cons (U : PyUnicode) (groups : Groups) (svc : Service)
    (t : CardInfo × List Char) (rest : List (CardInfo × List Char)) (st : Caches) :
    process_batch U groups svc (t :: rest) st =
      match (get_card_details U t.1 t.2 groups svc st).1 with
      | some x =>
        (x :: (process_batch U groups svc rest (get_card_details U t.1 t.2 groups svc st).2).1,
          (process_batch U groups svc rest (get_card_details U t.1 t.2 groups svc st).2).2)
      | none =>
        ((process_batch U groups svc rest (get_card_details U t.1 t.2 groups svc st).2).1,
          (process_batch U groups svc rest (get_card_details U t.1 t.2 groups svc st).2).2) := by
  rw [process_batch]

theorem process_batch_eq (U : PyUnicode) (groups : Groups) (svc : Service) :
    ∀ (l : List (CardInfo × List Char)) (st : Caches),
    (process_batch U groups svc l st).1 = batch_results U groups svc st l
    ∧ (∀ g', effIdx svc (process_batch U groups svc l st).2 g' = effIdx svc st g') := by
  intro l
  induction l with
  | nil => intro st; exact ⟨rfl, fun g' => rfl⟩
  | cons t rest ih =>
    intro st
    obtain ⟨hg1, hg2⟩ := gcd_eq_pure U t.1 t.2 groups svc st
    obtain ⟨ih1, ih2⟩ := ih (get_card_details U t.1 t.2 groups svc st).2
    have hbr : batch_results U groups svc (get_card_details U t.1 t.2 groups svc st).2 rest
        = batch_results U groups svc st rest :=
      batch_results_congr U groups svc _ st hg2 rest
    rw [process_batch_cons, batch_results_cons, hg1]
    cases hP : pure_result U t.1 t.2 groups svc st with
    | some x =>
      exact ⟨by rw [ih1, hbr], fun g' => (ih2 g').trans (hg2 g')⟩
    | none =>
      exact ⟨ih1.trans hbr, fun g' => (ih2 g').trans (hg2 g')⟩

theorem batch_results_insert (U : PyUnicode) (groups : Groups) (svc : Service) (st : Caches)
    (t : CardInfo × List Char) (post : List (CardInfo × List Char))
    (h : pure_result U t.1 t.2 groups svc st = none) :
    ∀ pre, batch_results U groups svc st (pre ++ t :: post)
      = batch_results U groups svc st (pre ++ post) := by
  intro pre
  induction pre with
  | nil =>
    rw [List.nil_append, List.nil_append, batch_results_cons, h]
  | cons p pre ih =>
    rw [List.cons_append, List.cons_append, batch_results_cons, batch_results_cons, ih]

theorem body_no_group (U : PyUnicode) (card : CardInfo) (sn : List Char)
    (groups : Groups) (svc : Service) (st : Caches)
    (h1 : find_group_id U (fix_set_name sn) groups = none)
    (h2 : isSubstring promoToken (U.lower (fix_set_name sn)) = false) :
    get_card_details_body U card sn groups svc st = (Except.ok none, st) := by
  simp only [get_card_details_body, h1, h2, truthy, Bool.and_false, if_false,
    main_phase, Bool.not_false, if_true]
  rfl

/-- C7: (a) a raised exception inside a single card's resolution body is
caught at the per-card boundary and converted to "no match" instead of
propagating; (b) a card whose label resolves to no group and contains no
`"promo"` substring yields "no match" (and leaves the caches untouched);
(c) in the batch fan-out, a card that yields no match contributes
nothing and every other card's results are exactly those of the batch
without it. -/
theorem per_card_failure_isolation :
    (∀ (U : PyUnicode) (card : CardInfo) (sn : List Char) (groups : Groups) (svc : Service)
      (st : Caches) (e : Exc) (st' : Caches),
      get_card_details_body U card sn groups svc st = (Except.error e, st') →
      get_card_details U card sn groups svc st = (none, st'))
    ∧ (∀ (U : PyUnicode) (card : CardInfo) (sn : List Char) (groups : Groups) (svc : Service)
      (st : Caches),
      find_group_id U (fix_set_name sn) groups = none →
      isSubstring promoToken (U.lower (fix_set_name sn)) = false →
      get_card_details U card sn groups svc st = (none, st))
    ∧ (∀ (U : PyUnicode) (groups : Groups) (svc : Service) (st : Caches)
      (pre post : List (CardInfo × List Char)) (t : CardInfo × List Char),
      (get_card_details U t.1 t.2 groups svc st).1 = none →
      (process_batch U groups svc (pre ++ t :: post) st).1
        = (process_batch U groups svc (pre ++ post) st).1) := by
  refine ⟨?_, ?_, ?_⟩
  · intro U card sn groups svc st e st' h
    rw [get_card_details, h]
  · intro U card sn groups svc st h1 h2
    rw [get_card_details, body_no_group U card sn groups svc st h1 h2]
  · intro U groups svc st pre post t h
    have hpure : pure_result U t.1 t.2 groups svc st = none := by
      rw [← (gcd_eq_pure U t.1 t.2 groups svc st).1]
      exact h
    rw [(process_batch_eq U groups svc (pre ++ t :: post) st).1,
      (process_batch_eq U groups svc (pre ++ post) st).1]
    exact batch_results_insert U groups svc st t post hpure pre

/-- C7 witness: (a) a service that raises yields "no match" with the
caches untouched; (b) an unresolvable non-promo label yields "no match";
(c) dropping such a card from a batch leaves the other results
unchanged. -/
theorem per_card_failure_isolation_witness :
    get_card_details asciiPy ⟨"Pikachu".toList, "25".toList, []⟩ "SetA".toList
      [("SetA".toList, 5)] (fun _ => Except.error "boom".toList) emptyCaches
      = (none, emptyCaches)
    ∧ get_card_details asciiPy ⟨"Pikachu".toList, "25".toList, []⟩ "Nope".toList
      [("SetA".toList, 5)] (fun _ => Except.ok [pikachuProduct]) emptyCaches
      = (none, emptyCaches)
    ∧ (process_batch asciiPy [("SetA".toList, 5)] (fun _ => Except.ok [pikachuProduct])
        ([(⟨"Pikachu".toList, "25".toList, []⟩, "SetA".toList)]
          ++ (⟨"Pikachu".toList, "25".toList, []⟩, "Nope".toList)
            :: [(⟨"Pikachu".toList, "025".toList, []⟩, "SetA".toList)]) emptyCaches).1
      = (process_batch asciiPy [("SetA".toList, 5)] (fun _ => Except.ok [pikachuProduct])
        ([(⟨"Pikachu".toList, "25".toList, []⟩, "SetA".toList)]
          ++ [(⟨"Pikachu".toList, "025".toList, []⟩, "SetA".toList)]) emptyCaches).1 :=
  ⟨per_card_failure_isolation.1 asciiPy ⟨"Pikachu".toList, "25".toList, []⟩ "SetA".toList
      [("SetA".toList, 5)] (fun _ => Except.error "boom".toList) emptyCaches
      "boom".toList emptyCaches rfl,
    per_card_failure_isolation.2.1 asciiPy ⟨"Pikachu".toList, "25".toList, []⟩ "Nope".toList
      [("SetA".toList, 5)] (fun _ => Except.ok [pikachuProduct]) emptyCaches
      (by decide) (by decide),
    per_card_failure_isolation.2.2 asciiPy [("SetA".toList, 5)]
      (fun _ => Except.ok [pikachuProduct]) emptyCaches
      [(⟨"Pikachu".toList, "25".toList, []⟩, "SetA".toList)]
      [(⟨"Pikachu".toList, "025".toList, []⟩, "SetA".toList)]
      (⟨"Pikachu".toList, "25".toList, []⟩, "Nope".toList)
      (by decide)⟩

end TcgInfo
